import Mathlib

/-!
# A modal terminal text editor: rows, cursor, viewport and key dispatch

Shallow embedding of `src/main.c`.

Conventions of the embedding.

* A byte is a `Nat` (`'\t'` is 9, `' '` is 32). The C `int` fields are `Int`; counters that
  start at 0 and are only incremented (`idx`, `rx`, `i`) are `Nat`. No value comes near
  `2^31`, so arithmetic is not wrapped.
* A row's `chars` buffer holds `size` bytes followed by a NUL. The model keeps the `size`
  bytes as a list, so `size` is the length of that list. `numrows` is likewise the length of
  the list of rows.
* An access `E.row[i]` with `i` outside `[0, numrows)`, or a copy out of `chars` outside
  `[0, size]`, is undefined behaviour in C: the embedded function returns `none` there.
* A read of `chars[i]` with `i ≥ size` is not a read of one of the row's bytes. What it sees
  in C is the terminator, a byte that an earlier deletion left behind in the buffer, or memory
  outside the allocation; the list of the row's bytes does not say which, so the embedded
  function returns `none` there as well.
-/

namespace Editor

/-- The tab stop, `#define TAB_STOP 4`. -/
def TAB_STOP : Nat := 4

/-- The tab byte. -/
def TAB : Nat := 9

/-- The space byte. -/
def SPACE : Nat := 32

/-- One line of text, `struct erow`; `size` is `chars.length`. -/
structure Row where
  chars : List Nat
  render : List Nat
  rsize : Int
deriving DecidableEq

/-- The field `size` of `struct erow`. -/
def Row.size (row : Row) : Int := row.chars.length

/-- The inner loop of `updateRow`, `while (idx % TAB_STOP != 0) row->render[idx++] = ' ';`,
run for at most `fuel` iterations. -/
def padLoop : Nat → List Nat → Nat → List Nat × Nat
  | 0, render, idx => (render, idx)
  | fuel + 1, render, idx =>
    if idx % TAB_STOP ≠ 0 then padLoop fuel (render ++ [SPACE]) (idx + 1) else (render, idx)

/-- The second `for` loop of `updateRow` over the bytes of `chars` still to be read, with the
bytes written to `render` so far and the write index `idx`. -/
def renderLoop : List Nat → List Nat → Nat → List Nat × Nat
  | [], render, idx => (render, idx)
  | c :: cs, render, idx =>
    if c = TAB then
      let p := padLoop TAB_STOP (render ++ [SPACE]) (idx + 1)
      renderLoop cs p.1 p.2
    else
      renderLoop cs (render ++ [c]) (idx + 1)

/-- The function `updateRow`: recompute `render` and `rsize` from `chars`. -/
def updateRow (row : Row) : Row :=
  let p := renderLoop row.chars [] 0
  { row with render := p.1, rsize := p.2 }

/-- The loop of `cxToRx`, with `n` iterations left, the index `i` and the column `rx`. Each
iteration reads `chars[i]`; with `i ≥ size` that is not one of the row's bytes: `none`. -/
def cxToRxLoop (chars : List Nat) : Nat → Nat → Nat → Option Nat
  | 0, _, rx => some rx
  | n + 1, i, rx =>
    match chars[i]? with
    | none => none
    | some c =>
      let rx1 := if c = TAB then rx + ((TAB_STOP - 1) - rx % TAB_STOP) else rx
      cxToRxLoop chars n (i + 1) (rx1 + 1)

/-- The function `cxToRx`: the render column of the logical offset `cx`. The loop runs for
`i` from 0 below `cx` (not at all when `cx ≤ 0`) and reads `chars[i]`, so with `cx > size` it
reads past the row's bytes and the result is `none`. -/
def cxToRx (row : Row) (cx : Int) : Option Int :=
  (cxToRxLoop row.chars cx.toNat 0 0).map (fun rx => (rx : Int))

/-! ### The editor state -/

/-- The two input modes, `enum modes`. -/
inductive Mode where
  | NORMAL
  | INSERT
deriving DecidableEq

/-- The global `struct config E`, without the clock and the terminal settings; `numrows` is
`row.length`. -/
structure Config where
  mode : Mode
  cx : Int
  cy : Int
  rx : Int
  rowoff : Int
  coloff : Int
  screenrows : Int
  screencols : Int
  row : List Row
  filename : Option (List Nat)
  tmpFileExt : List Nat
  mod : Bool
  statusmsg : List Nat
  help : List Nat
deriving DecidableEq

/-- The field `numrows` of `struct config`. -/
def Config.numrows (E : Config) : Int := E.row.length

/-- The access `E.row[i]`; `none` when `i` is not the index of a row. -/
def Config.rowAt (E : Config) (i : Int) : Option Row :=
  if i < 0 then none else E.row[i.toNat]?

/-! ### Key codes, `enum cursorKeys` and the bytes named in `handleKeypress` -/

def TAB_KEY : Int := 9
def BACKSPACE : Int := 127
def ARROW_LEFT : Int := 1000
def ARROW_RIGHT : Int := 1001
def ARROW_UP : Int := 1002
def ARROW_DOWN : Int := 1003
def PAGE_UP : Int := 1004
def PAGE_DOWN : Int := 1005
def HOME_KEY : Int := 1006
def END_KEY : Int := 1007
def DEL_KEY : Int := 1008

/-- The key `'\x1b'`. -/
def ESC_KEY : Int := 27

/-- The key `'\r'`. -/
def ENTER_KEY : Int := 13

/-- The macro `CtrlKey(k)`, `k & 31`, on a byte below 128. -/
def CtrlKey (k : Int) : Int := k % 32

/-- The library function `iscntrl` in the C locale. -/
def iscntrl (c : Int) : Bool := (0 ≤ c ∧ c < 32) ∨ c = 127

/-! ### Row store -/

/-- The row that `insertRow` builds from the bytes `s`: `chars` is a copy of `s`, `rsize` is 0
and `render` is `NULL`, then `updateRow` is called. -/
def newRow (s : List Nat) : Row :=
  updateRow { chars := s, render := [], rsize := 0 }

/-- The function `insertRow(idx, s, len)`, with `s` the `len` bytes copied. -/
def insertRow (idx : Int) (s : List Nat) (E : Config) : Config :=
  if idx < 0 ∨ idx > E.numrows then E
  else
    { E with row := E.row.take idx.toNat ++ newRow s :: E.row.drop idx.toNat, mod := true }

/-- The function `rowInsertChar(&E.row[k], idx, c)`. -/
def rowInsertChar (k : Int) (idx : Int) (c : Nat) (E : Config) : Option Config := do
  let row ← E.rowAt k
  let idx1 := if idx < 0 ∨ idx > row.size then row.size else idx
  let row1 := updateRow
    { row with chars := row.chars.take idx1.toNat ++ c :: row.chars.drop idx1.toNat }
  some { E with row := E.row.set k.toNat row1, mod := true }

/-- The function `rowDelChar(&E.row[k], idx)`: the bytes after `idx` move down by one, then
`size` is decremented. On an empty row with `idx = 0` the size would become `-1` and
`updateRow` would write the terminator into an allocation of no byte: `none`. -/
def rowDelChar (k : Int) (idx : Int) (E : Config) : Option Config := do
  let row ← E.rowAt k
  if idx < 0 ∨ idx > row.size then some E
  else if row.size = 0 then none
  else
    let moved := row.chars.take idx.toNat ++ row.chars.drop (idx.toNat + 1)
    let row1 := updateRow { row with chars := moved.take (row.size - 1).toNat }
    some { E with row := E.row.set k.toNat row1, mod := true }

/-- The function `rowAppendString(&E.row[k], s, len)`, with `s` the `len` bytes copied. -/
def rowAppendString (k : Int) (s : List Nat) (E : Config) : Option Config := do
  let row ← E.rowAt k
  let row1 := updateRow { row with chars := row.chars ++ s }
  some { E with row := E.row.set k.toNat row1, mod := true }

/-- The function `delRow(idx)`. -/
def delRow (idx : Int) (E : Config) : Config :=
  if idx < 0 ∨ idx ≥ E.numrows then E
  else { E with row := E.row.eraseIdx idx.toNat, mod := true }

/-- The function `delChar`. -/
def delChar (E : Config) : Option Config :=
  if E.cy = E.numrows then some E
  else if E.cx = 0 ∧ E.cy = 0 then some E
  else do
    let row ← E.rowAt E.cy
    if E.cx > 0 then
      let E1 ← rowDelChar E.cy (E.cx - 1) E
      some { E1 with cx := E1.cx - 1 }
    else
      let prev ← E.rowAt (E.cy - 1)
      let E1 := { E with cx := prev.size }
      let E2 ← rowAppendString (E1.cy - 1) row.chars E1
      let E3 := delRow E2.cy E2
      some { E3 with cy := E3.cy - 1 }

/-- The function `insertChar(c)`. -/
def insertChar (c : Nat) (E : Config) : Option Config := do
  let E1 := if E.cy = E.numrows then insertRow E.numrows [] E else E
  let E2 ← rowInsertChar E1.cy E1.cx c E1
  some { E2 with cx := E2.cx + 1 }

/-- The function `insertNewline`. With `cx ≠ 0` it copies `chars[cx .. size)`, which lies in
the buffer only for `0 ≤ cx ≤ size`. -/
def insertNewline (E : Config) : Option Config := do
  let E3 ←
    (if E.cx = 0 then some (insertRow E.cy [] E)
     else do
      let row ← E.rowAt E.cy
      if E.cx < 0 ∨ E.cx > row.size then none
      else
        let E1 := insertRow (E.cy + 1) (row.chars.drop E.cx.toNat) E
        let row1 ← E1.rowAt E1.cy
        let row2 := updateRow { row1 with chars := row1.chars.take E1.cx.toNat }
        some { E1 with row := E1.row.set E1.cy.toNat row2 })
  some { E3 with cy := E3.cy + 1, cx := 0 }

/-! ### Cursor and viewport -/

/-- The four `if` statements of `scroll` that follow the assignment of `E.rx`: the offsets
`rowoff` and `coloff` are moved to the cursor. -/
def scrollOffsets (E1 : Config) : Config :=
  let E2 := if E1.cy < E1.rowoff then { E1 with rowoff := E1.cy } else E1
  let E3 := if E2.cy ≥ E2.rowoff + E2.screenrows
    then { E2 with rowoff := E2.cy - E2.screenrows + 1 } else E2
  let E4 := if E3.rx < E3.coloff then { E3 with coloff := E3.rx } else E3
  let E5 := if E4.rx ≥ E4.coloff + E4.screencols
    then { E4 with coloff := E4.rx - E4.screencols + 1 } else E4
  E5

/-- The function `scroll`: `E.rx` is 0, or the result of `cxToRx` on the row at `cy` when
`cy < numrows`; then the offsets are adjusted. -/
def scroll (E : Config) : Option Config := do
  let rx ← (if E.cy < E.numrows then (E.rowAt E.cy).bind (fun r => cxToRx r E.cx) else some 0)
  some (scrollOffsets { E with rx := rx })

/-- The `switch` of `moveCursor`: the move itself, before the clamp. -/
def moveCursorSwitch (c : Int) (E : Config) : Option Config :=
  if c = ARROW_LEFT ∨ c = 104 then
    if E.cx > 0 then some { E with cx := E.cx - 1 }
    else if E.cy > 0 then do
      let r ← E.rowAt (E.cy - 1)
      some { E with cy := E.cy - 1, cx := r.size }
    else some E
  else if c = ARROW_RIGHT ∨ c = 108 then
    if E.cy ≥ E.numrows then some E
    else do
      let currRow ← E.rowAt E.cy
      if E.cx ≤ currRow.size - 1 then some { E with cx := E.cx + 1 }
      else if E.cx = currRow.size ∧ E.mode = Mode.INSERT ∧ E.cy ≠ E.numrows - 1 then
        some { E with cy := E.cy + 1, cx := 0 }
      else some E
  else if c = ARROW_UP ∨ c = 107 then
    if E.cy ≠ 0 then some { E with cy := E.cy - 1 } else some E
  else if c = ARROW_DOWN ∨ c = 106 then
    if E.cy < E.numrows - 1 then some { E with cy := E.cy + 1 } else some E
  else some E

/-- The value `currRow ? currRow->size : 0` for the row under the cursor. -/
def currRowLen (E : Config) : Option Int :=
  if E.cy ≥ E.numrows then some 0 else (E.rowAt E.cy).map Row.size

/-- The function `moveCursor(c)`: the move, then the clamp of `cx` to the row at `cy`. -/
def moveCursor (c : Int) (E : Config) : Option Config := do
  let E1 ← moveCursorSwitch c E
  let len ← currRowLen E1
  let E2 := if E1.cx > len then { E1 with cx := len } else E1
  some (if E2.mode = Mode.NORMAL ∧ E2.cx = len then { E2 with cx := E2.cx - 1 } else E2)

/-- The loop `while (t--) moveCursor(c)` of the page keys, with `t` iterations left. -/
def pageLoop (c : Int) : Nat → Config → Option Config
  | 0, E => some E
  | t + 1, E => (moveCursor c E).bind (pageLoop c t)

/-! ### Key dispatch -/

/-- The function `handleKeypress`, after `readKeypress` has returned the key `c`. The command
prompt opened by `':'` in NORMAL mode is the argument `cmd`. The byte given to `insertChar`
is the key converted to `char`. -/
def handleKeypress (cmd : Config → Option Config) (c : Int) (E : Config) : Option Config :=
  let ins := insertChar (c % 256).toNat E
  if c = CtrlKey 113 then some E
  else if c = ARROW_UP ∨ c = ARROW_DOWN ∨ c = ARROW_LEFT ∨ c = ARROW_RIGHT then moveCursor c E
  else if c = 104 ∨ c = 106 ∨ c = 107 ∨ c = 108 then
    if E.mode = Mode.NORMAL then moveCursor c E else ins
  else if c = 105 ∨ c = 97 then
    if E.mode = Mode.NORMAL then
      let E1 := { E with mode := Mode.INSERT }
      if E1.numrows ≠ 0 then
        if c = 97 then do
          let r ← E1.rowAt E1.cy
          if E1.cx < r.size then moveCursor ARROW_RIGHT E1 else some E1
        else some E1
      else some E1
    else ins
  else if c = 58 then
    if E.mode = Mode.NORMAL then cmd E else ins
  else if c = PAGE_UP ∨ c = PAGE_DOWN then
    if E.screenrows < 0 then none
    else pageLoop (if c = PAGE_UP then ARROW_UP else ARROW_DOWN) E.screenrows.toNat E
  else if c = HOME_KEY then some { E with cx := 0 }
  else if c = CtrlKey 97 then some { E with statusmsg := E.help.take 79 }
  else if c = END_KEY then do
    let E1 ← (if E.cy < E.numrows then (E.rowAt E.cy).map (fun r => { E with cx := r.size })
      else some E)
    some (if E1.mode = Mode.NORMAL then { E1 with cx := E1.cx - 1 } else E1)
  else if c = 48 then
    if E.mode = Mode.NORMAL then some { E with cx := 0 } else ins
  else if c = 36 then
    if E.mode = Mode.NORMAL then
      if E.cy < E.numrows then (E.rowAt E.cy).map (fun r => { E with cx := r.size - 1 })
      else some E
    else ins
  else if c = DEL_KEY then do
    let r ← E.rowAt E.cx
    if (E.cx < r.size ∨ E.cy < E.numrows - 1) ∧ E.mode = Mode.INSERT then
      (moveCursor ARROW_RIGHT E).bind delChar
    else some E
  else if c = CtrlKey 104 ∨ c = BACKSPACE then
    if E.mode = Mode.INSERT then delChar E else some E
  else if c = 120 then
    if E.mode = Mode.NORMAL then do
      let r ← E.rowAt E.cy
      if r.size > 0 then delChar { E with cx := E.cx + 1 } else some E
    else ins
  else if c = ESC_KEY then
    let E1 := { E with mode := Mode.NORMAL }
    if E1.numrows > 0 then do
      let r ← E1.rowAt E1.cy
      some (if E1.cx = r.size then { E1 with cx := E1.cx - 1 } else E1)
    else some E1
  else if c = ENTER_KEY then
    if E.mode = Mode.INSERT then insertNewline E else some E
  else if c = 111 then
    if E.mode = Mode.NORMAL then do
      let r ← E.rowAt E.cy
      let E1 ← insertNewline { E with mode := Mode.INSERT, cx := r.size }
      some { E1 with cx := 0 }
    else ins
  else if c = 79 then
    if E.mode = Mode.NORMAL then
      let E1 := insertRow E.cy [] { E with mode := Mode.INSERT }
      some { E1 with cx := 0 }
    else ins
  else
    if E.mode = Mode.INSERT ∧ ¬ (iscntrl c = true ∧ c ≠ TAB_KEY) then ins else some E

/-- Successive calls of `handleKeypress`, one for each key of the list. -/
def handleKeys (cmd : Config → Option Config) : List Int → Config → Option Config
  | [], E => some E
  | c :: cs, E => (handleKeypress cmd c E).bind (handleKeys cmd cs)

/-- The function `init`, with the window size `wsRow` by `wsCol` that `getWindowSize` reports;
the extension is the bytes of `".ded"` and `help` the bytes of the help line. -/
def init (wsRow wsCol : Int) : Config :=
  { mode := Mode.NORMAL, cx := 0, cy := 0, rx := 0, rowoff := 0, coloff := 0,
    screenrows := wsRow - 2, screencols := wsCol,
    row := [], filename := none, tmpFileExt := [46, 100, 101, 100], mod := false,
    statusmsg := [],
    help := [72, 101, 108, 112, 32, 124, 32, 58, 113, 32, 32, 61, 32, 113, 117, 105, 116, 32, 124, 32,
      58, 119, 32, 61, 32, 115, 97, 118, 101, 32, 124, 32, 58, 119, 113, 32, 61, 32, 115,
      97, 118, 101, 32, 97, 110, 100, 32, 113, 117, 105, 116, 32, 124, 32, 67, 116, 114,
      108, 45, 65, 32, 61, 32, 104, 101, 108, 112] }

/-- The buffer that holds the given lines: from `init` with an 80 by 24 window, one call
`insertRow(E.numrows, line, len)` for each line, as the loop of `fileOpen` makes them. -/
def bufferOf (lines : List (List Nat)) : Config :=
  lines.foldl (fun E s => insertRow E.numrows s E) (init 24 80)

/-! ### Persistence -/

/-- The function `rowsToString`: the bytes copied into the buffer `s`, and the length stored
in `*len`, which is also the size of the allocation of `s`. -/
def rowsToString (E : Config) : List Nat × Int :=
  let tmplen := E.row.foldl (fun n r => n + (r.size + 1)) (0 : Int)
  let s := E.row.foldl (fun s r => s ++ r.chars ++ [10]) []
  (s, tmplen)

/-- The successive results of the library function `getline` on a stream that holds `content`:
every line with its newline byte, and a last line without one when the content does not end
in a newline. The argument `cur` is the part of the current line already read. -/
def getlines : List Nat → List Nat → List (List Nat)
  | [], cur => if cur = [] then [] else [cur]
  | b :: bs, cur => if b = 10 then (cur ++ [10]) :: getlines bs [] else getlines bs (cur ++ [b])

/-- The loop `while (linelen > 0 && (line[linelen - 1] == '\n' || line[linelen - 1] == '\r'))
linelen--;` of `fileOpen`: the line without its trailing newline and carriage-return bytes. -/
def stripEol (line : List Nat) : List Nat :=
  (line.reverse.dropWhile (fun b => b == 10 || b == 13)).reverse

/-- What the system calls of one command answer: the content that `fopen(path, "r")` delivers
(`none` when it fails), whether `open`, `ftruncate`, `write` and `rename` succeed, and the
text of `strerror(errno)`. -/
structure World where
  fopen : List Nat → Option (List Nat)
  openOk : Bool
  truncOk : Bool
  writeOk : Bool
  renameOk : Bool
  strerror : List Nat

/-- What a command does outside the editor state. -/
inductive Effect where
  | fopened (path : List Nat)
  | created (path : List Nat)
  | truncated (path : List Nat) (len : Int)
  | written (path : List Nat) (data : List Nat)
  | renamed (src : List Nat) (dst : List Nat)
  | exited (status : Int)
deriving DecidableEq

/-- The function `fileOpen(filename)`: the state after it and what it did. When `fopen` fails
it calls `die`, which exits with status 1. -/
def fileOpen (w : World) (filename : List Nat) (E : Config) : Config × List Effect :=
  let E1 := { E with filename := some filename }
  match w.fopen filename with
  | none => (E1, [Effect.exited 1])
  | some content =>
    let E2 := (getlines content []).foldl (fun E line => insertRow E.numrows (stripEol line) E) E1
    ({ E2 with mod := false }, [Effect.fopened filename])

/-! ### The save format as the specification words it -/

/-- The rows' `chars`, each followed by one newline byte, in row order. -/
def specText : List Row → List Nat
  | [] => []
  | r :: rs => r.chars ++ [10] ++ specText rs

/-- The sum over the rows of `size + 1`. -/
def specTextLen : List Row → Int
  | [] => 0
  | r :: rs => (r.size + 1) + specTextLen rs

/-! ### Input decoder -/

/-- One call `read(STDIN_FILENO, &b, 1)` on the outcomes still to come: `some b` is a byte
read, a value from 0 to 255 (`b % 256`), `none` is a call that times out; when nothing is left
the call times out. -/
def readByte : List (Option Nat) → Option Nat × List (Option Nat)
  | [] => (none, [])
  | none :: rest => (none, rest)
  | some b :: rest => (some (b % 256), rest)

/-- The `int` that a plain `char` holding the byte `b` converts to, as in `return c` with
`char c`. Whether plain `char` is signed is left to the platform by the language:
`signedChar` says which. Where it is unsigned the result is the byte; where it is signed a
byte from 128 to 255 gives the byte minus 256. -/
def charToInt (signedChar : Bool) (b : Nat) : Int :=
  if signedChar = true ∧ 128 ≤ b % 256 then ((b % 256 : Nat) : Int) - 256
  else ((b % 256 : Nat) : Int)

/-- The body of `if (c == '\x1b')` in `readKeypress`, with the final `return c` that every
path without a `return` of its own reaches: the key and the outcomes not consumed. The bytes
in `seq` are compared with characters below 128 only, so the comparisons come out the same
whether plain `char` is signed or not. -/
def readEscape (reads : List (Option Nat)) : Int × List (Option Nat) :=
  match readByte reads with
  | (none, r1) => (ESC_KEY, r1)
  | (some s0, r1) =>
    match readByte r1 with
    | (none, r2) => (ESC_KEY, r2)
    | (some s1, r2) =>
      if s0 = 91 then
        if 48 ≤ s1 ∧ s1 ≤ 57 then
          match readByte r2 with
          | (none, r3) => (ESC_KEY, r3)
          | (some s2, r3) =>
            if s2 = 126 then
              if s1 = 49 then (HOME_KEY, r3)
              else if s1 = 51 then (DEL_KEY, r3)
              else if s1 = 52 then (END_KEY, r3)
              else if s1 = 53 then (PAGE_UP, r3)
              else if s1 = 54 then (PAGE_DOWN, r3)
              else if s1 = 55 then (HOME_KEY, r3)
              else if s1 = 56 then (END_KEY, r3)
              else (ESC_KEY, r3)
            else (ESC_KEY, r3)
        else if s1 = 65 then (ARROW_UP, r2)
        else if s1 = 66 then (ARROW_DOWN, r2)
        else if s1 = 67 then (ARROW_RIGHT, r2)
        else if s1 = 68 then (ARROW_LEFT, r2)
        else if s1 = 72 then (HOME_KEY, r2)
        else if s1 = 70 then (END_KEY, r2)
        else (ESC_KEY, r2)
      else if s0 = 79 then
        if s1 = 72 then (HOME_KEY, r2)
        else if s1 = 70 then (END_KEY, r2)
        else (ESC_KEY, r2)
      else (ESC_KEY, r2)

/-- The function `readKeypress` on the outcomes of the calls of `read` still to come: the key
and the outcomes not consumed. The first loop repeats a call that times out; when no byte
ever comes it does not return, which is `none`. The byte read is held in the plain `char c`,
and `return c` converts it to `int`, which is `charToInt`. -/
def readKeypress (signedChar : Bool) : List (Option Nat) → Option (Int × List (Option Nat))
  | [] => none
  | none :: rest => readKeypress signedChar rest
  | some c :: rest =>
    if c % 256 = 27 then some (readEscape rest) else some (charToInt signedChar c, rest)

/-! ### The escape sequences as the specification lists them -/

/-- The bytes that follow ESC in a recognised sequence, with the key each decodes to. -/
def specEscapes : List (List Nat × Int) :=
  [([91, 65], ARROW_UP), ([91, 66], ARROW_DOWN), ([91, 67], ARROW_RIGHT), ([91, 68], ARROW_LEFT),
   ([91, 72], HOME_KEY), ([79, 72], HOME_KEY), ([91, 49, 126], HOME_KEY),
   ([91, 55, 126], HOME_KEY),
   ([91, 70], END_KEY), ([79, 70], END_KEY), ([91, 52, 126], END_KEY), ([91, 56, 126], END_KEY),
   ([91, 51, 126], DEL_KEY), ([91, 53, 126], PAGE_UP), ([91, 54, 126], PAGE_DOWN)]

/-! ### Status messages and the command prompt -/

/-- The bytes of `Invalid Command`. -/
def MSG_INVALID : List Nat :=
  [73, 110, 118, 97, 108, 105, 100, 32, 67, 111, 109, 109, 97, 110, 100]

/-- The bytes of `Command Aborted`. -/
def MSG_COMMAND_ABORTED : List Nat :=
  [67, 111, 109, 109, 97, 110, 100, 32, 65, 98, 111, 114, 116, 101, 100]

/-- The bytes of `Save Aborted`. -/
def MSG_SAVE_ABORTED : List Nat :=
  [83, 97, 118, 101, 32, 65, 98, 111, 114, 116, 101, 100]

/-- The bytes of `You have Unsaved Changes. Type :q! to exit without saving.`. -/
def MSG_UNSAVED : List Nat :=
  [89, 111, 117, 32, 104, 97, 118, 101, 32, 85, 110, 115, 97, 118, 101, 100, 32, 67, 104,
   97, 110, 103, 101, 115, 46, 32, 84, 121, 112, 101, 32, 58, 113, 33, 32, 116, 111, 32,
   101, 120, 105, 116, 32, 119, 105, 116, 104, 111, 117, 116, 32, 115, 97, 118, 105, 110,
   103, 46]

/-- The bytes of `Unsaved Changes detected`. -/
def MSG_UNSAVED_DETECTED : List Nat :=
  [85, 110, 115, 97, 118, 101, 100, 32, 67, 104, 97, 110, 103, 101, 115, 32, 100, 101, 116,
   101, 99, 116, 101, 100]

/-- The bytes of `Already a file is open`. -/
def MSG_ALREADY_OPEN : List Nat :=
  [65, 108, 114, 101, 97, 100, 121, 32, 97, 32, 102, 105, 108, 101, 32, 105, 115, 32, 111,
   112, 101, 110]

/-- The bytes of `Save as: `. -/
def SAVE_AS_PRE : List Nat :=
  [83, 97, 118, 101, 32, 97, 115, 58, 32]

/-- The bytes of ` [ESC to Cancel]`. -/
def SAVE_AS_POST : List Nat :=
  [32, 91, 69, 83, 67, 32, 116, 111, 32, 67, 97, 110, 99, 101, 108, 93]

/-- The bytes of `L, `. -/
def MSG_WRITTEN_L : List Nat :=
  [76, 44, 32]

/-- The bytes of `B written`. -/
def MSG_WRITTEN_B : List Nat :=
  [66, 32, 119, 114, 105, 116, 116, 101, 110]

/-- The bytes of `Couldn't overwrite "`. -/
def MSG_OVERWRITE : List Nat :=
  [67, 111, 117, 108, 100, 110, 39, 116, 32, 111, 118, 101, 114, 119, 114, 105, 116, 101,
   32, 34]

/-- The bytes of `Failed to write changes to temp file: `. -/
def MSG_WRITE_FAILED : List Nat :=
  [70, 97, 105, 108, 101, 100, 32, 116, 111, 32, 119, 114, 105, 116, 101, 32, 99, 104, 97,
   110, 103, 101, 115, 32, 116, 111, 32, 116, 101, 109, 112, 32, 102, 105, 108, 101, 58,
   32]

/-- The bytes of `ftruncate failed: `. -/
def MSG_FTRUNCATE : List Nat :=
  [102, 116, 114, 117, 110, 99, 97, 116, 101, 32, 102, 97, 105, 108, 101, 100, 58, 32]

/-- The function `setStatusMsg` once the format is expanded to the bytes `msg`: `vsnprintf`
keeps at most 79 of them in `statusmsg[80]`. The time stamp is left out. -/
def setStatusMsg (msg : List Nat) (E : Config) : Config :=
  { E with statusmsg := msg.take 79 }

/-- The conversion `%d` of a number. -/
def decimal (i : Int) : List Nat :=
  if i < 0 then 45 :: (Nat.toDigits 10 (-i).toNat).map Char.toNat
  else (Nat.toDigits 10 i.toNat).map Char.toNat

/-- The function `commandPrompt(prompt)` with `pre` and `post` the text of the prompt before
and after `%s`, on the keys that the successive calls of `readKeypress` return and the bytes
`buf` typed so far: the line returned (`none` for `NULL`), the keys left and the state.
`updateScreen` is `scroll` followed by output. When the keys run out the read does not
return, which is `none`. -/
def commandPrompt (pre post : List Nat) :
    List Int → List Nat → Config → Option (Option (List Nat) × List Int × Config)
  | [], _, _ => none
  | c :: keys, buf, E =>
    match scroll (setStatusMsg (pre ++ buf ++ post) E) with
    | none => none
    | some E1 =>
      if c = BACKSPACE ∨ c = CtrlKey 104 then
        commandPrompt pre post keys (if buf.length ≠ 0 then buf.dropLast else buf) E1
      else if c = ESC_KEY then some (none, keys, setStatusMsg [] E1)
      else if c = ENTER_KEY then
        if buf.length ≠ 0 then some (some buf, keys, setStatusMsg [] E1)
        else commandPrompt pre post keys buf E1
      else if iscntrl c = false ∧ c < 128 then
        commandPrompt pre post keys (buf ++ [(c % 256).toNat]) E1
      else commandPrompt pre post keys buf E1

/-! ### Saving and the commands -/

/-- The call `malloc(n)`: an allocation of `n` bytes, none of them written yet. -/
def malloc (n : Nat) : List (Option Nat) := List.replicate n none

/-- The call `memcpy(&buf[off], src, len)` with `src` the `len` bytes copied; `none` when
they do not fit in the allocation. -/
def memcpy (buf : List (Option Nat)) (off : Nat) (src : List Nat) :
    Option (List (Option Nat)) :=
  if off + src.length ≤ buf.length
  then some (buf.take off ++ src.map some ++ buf.drop (off + src.length))
  else none

/-- The store `buf[i] = b`; `none` when `i` is not an index of the allocation. -/
def store (buf : List (Option Nat)) (i : Nat) (b : Nat) : Option (List (Option Nat)) :=
  if i < buf.length then some (buf.set i (some b)) else none

/-- The C string that starts at `buf[0]`: the bytes before the first NUL; `none` when the
scan meets a byte that was never written or leaves the allocation. -/
def cstring : List (Option Nat) → Option (List Nat)
  | [] => none
  | none :: _ => none
  | some b :: rest => if b = 0 then some [] else (cstring rest).map (fun s => b :: s)

/-- The lines of `fileSave` that build `tmpfilename` from the file name and the extension. -/
def tmpFilename (filename ext : List Nat) : Option (List (Option Nat)) := do
  let filenameLen := filename.length
  let tmpExtLen := ext.length
  let tmpFilenameLen := filenameLen + tmpExtLen + 1
  let b0 := malloc tmpFilenameLen
  let b1 ← memcpy b0 0 filename
  let b2 ← memcpy b1 filenameLen ext
  store b2 tmpFilenameLen 0

/-- What a command returns: the state, the keys not consumed, and what it did outside the
state. -/
structure Result where
  E : Config
  keys : List Int
  effects : List Effect

/-- The function `quitEditor`, which ends the process with status 0. -/
def quitEditor (r : Result) : Result :=
  { r with effects := r.effects ++ [Effect.exited 0] }

/-- The function `fileSave`. An effect is recorded for each system call that succeeds. -/
def fileSave (w : World) (keys : List Int) (E : Config) : Option Result :=
  let named : Option (Option (List Nat) × List Int × Config) :=
    match E.filename with
    | some f => some (some f, keys, E)
    | none =>
      (commandPrompt SAVE_AS_PRE SAVE_AS_POST keys [] E).map
        (fun r => (r.1, r.2.1, { r.2.2 with filename := r.1 }))
  match named with
  | none => none
  | some (none, keys1, E1) => some ⟨setStatusMsg MSG_SAVE_ABORTED E1, keys1, []⟩
  | some (some fname, keys1, E1) =>
    let buf := (rowsToString E1).1
    let len := (rowsToString E1).2
    match (tmpFilename fname E1.tmpFileExt).bind cstring with
    | none => none
    | some path =>
      if w.openOk then
        if w.truncOk then
          if w.writeOk then
            if w.renameOk then
              some ⟨{ setStatusMsg ([34] ++ fname ++ [34, 32] ++ decimal E1.numrows
                        ++ MSG_WRITTEN_L ++ decimal len ++ MSG_WRITTEN_B) E1 with mod := false },
                keys1,
                [Effect.created path, Effect.truncated path len, Effect.written path buf,
                 Effect.renamed path fname]⟩
            else
              some ⟨setStatusMsg (MSG_OVERWRITE ++ fname ++ [34, 58, 32] ++ w.strerror) E1,
                keys1,
                [Effect.created path, Effect.truncated path len, Effect.written path buf]⟩
          else
            some ⟨setStatusMsg (MSG_WRITE_FAILED ++ w.strerror) E1, keys1,
              [Effect.created path, Effect.truncated path len]⟩
        else
          some ⟨setStatusMsg (MSG_FTRUNCATE ++ w.strerror) E1, keys1, [Effect.created path]⟩
      else some ⟨E1, keys1, []⟩

/-- The loop of `editorCommand` that removes the trailing blanks and tabs, on the command
read from its last byte back; `none` when every byte is removed and the loop reads
`command[-1]`. -/
def trimBlanks : List Nat → Option (List Nat)
  | [] => none
  | b :: bs => if b = 32 ∨ b = 9 then trimBlanks bs else some (b :: bs)

/-- The function `editorCommand`. -/
def editorCommand (w : World) (keys : List Int) (E : Config) : Option Result :=
  match commandPrompt [58] [] keys [] E with
  | none => none
  | some (none, keys1, E1) => some ⟨setStatusMsg MSG_COMMAND_ABORTED E1, keys1, []⟩
  | some (some line, keys1, E1) =>
    match trimBlanks line.reverse with
    | none => none
    | some rcommand =>
      let command := rcommand.reverse
      let commandLen : Int := command.length
      let c0 := command.getD 0 0
      let c1 := command.getD 1 0
      if commandLen > 2 ∧ c0 ≠ 111 then some ⟨setStatusMsg MSG_INVALID E1, keys1, []⟩
      else if c0 = 119 then
        match fileSave w keys1 E1 with
        | none => none
        | some r => if commandLen > 1 ∧ c1 = 113 then some (quitEditor r) else some r
      else if c0 = 113 then
        if E1.mod = false then some (quitEditor ⟨E1, keys1, []⟩)
        else if commandLen > 1 ∧ c1 = 33 then some (quitEditor ⟨E1, keys1, []⟩)
        else some ⟨setStatusMsg MSG_UNSAVED E1, keys1, []⟩
      else if c0 = 111 then
        if commandLen ≥ 3 ∧ c1 = 32 then
          if E1.filename = none then
            if E1.numrows = 0 then
              some ⟨(fileOpen w (command.drop 2) E1).1, keys1, (fileOpen w (command.drop 2) E1).2⟩
            else if E1.numrows > 0 then some ⟨setStatusMsg MSG_UNSAVED_DETECTED E1, keys1, []⟩
            else some ⟨E1, keys1, []⟩
          else some ⟨setStatusMsg MSG_ALREADY_OPEN E1, keys1, []⟩
        else some ⟨setStatusMsg MSG_INVALID E1, keys1, []⟩
      else some ⟨setStatusMsg MSG_INVALID E1, keys1, []⟩

/-! ### Tab expansion as the specification words it -/

/-- Number of spaces a tab becomes when `n` bytes are already rendered: it brings the render
index to the next multiple of the tab stop, with at least one space. -/
def specTabWidth (n : Nat) : Nat := TAB_STOP - n % TAB_STOP

/-- One byte of the expansion: a tab becomes spaces, any other byte is copied. -/
def specExpandStep (out : List Nat) (c : Nat) : List Nat :=
  if c = TAB then out ++ List.replicate (specTabWidth out.length) SPACE else out ++ [c]

/-- The tab expansion of a sequence of bytes, scanning left to right. -/
def specExpand (chars : List Nat) : List Nat :=
  chars.foldl specExpandStep []

/-! ### Lemmas on rendering -/

theorem padLoop_spec (fuel : Nat) (render : List Nat) (k : Nat)
    (hk : k ≤ fuel) (hmod : (render.length + k) % TAB_STOP = 0)
    (hmin : ∀ j, j < k → (render.length + j) % TAB_STOP ≠ 0) :
    padLoop fuel render render.length
      = (render ++ List.replicate k SPACE, render.length + k) := by
  induction fuel generalizing render k with
  | zero =>
    have : k = 0 := by omega
    subst this
    simp [padLoop]
  | succ n ih =>
    cases k with
    | zero =>
      have h0 : render.length % TAB_STOP = 0 := by simpa using hmod
      simp [padLoop, h0]
    | succ k =>
      have h0 : render.length % TAB_STOP ≠ 0 := by
        have := hmin 0 (by omega)
        simpa using this
      have hlen : (render ++ [SPACE]).length = render.length + 1 := by simp
      have step := ih (render ++ [SPACE]) k (by omega)
        (by rw [hlen]; rw [← hmod]; congr 1; omega)
        (by
          intro j hj
          rw [hlen]
          have := hmin (j + 1) (by omega)
          intro hc
          apply this
          rw [← hc]; congr 1; omega)
      rw [hlen] at step
      simp only [padLoop, h0, ne_eq, not_false_eq_true, if_true]
      rw [step]
      simp [List.replicate_succ, Nat.add_assoc, Nat.add_comm 1 k]

theorem padLoop_tab (render : List Nat) :
    padLoop TAB_STOP (render ++ [SPACE]) (render.length + 1)
      = (render ++ List.replicate (specTabWidth render.length) SPACE,
         render.length + specTabWidth render.length) := by
  have hlen : (render ++ [SPACE]).length = render.length + 1 := by simp
  have hw : 1 ≤ specTabWidth render.length := by
    unfold specTabWidth TAB_STOP; omega
  have h := padLoop_spec TAB_STOP (render ++ [SPACE]) (specTabWidth render.length - 1)
    (by unfold specTabWidth TAB_STOP; omega)
    (by rw [hlen]; unfold specTabWidth TAB_STOP; omega)
    (by intro j hj; rw [hlen]; unfold specTabWidth TAB_STOP at *; omega)
  rw [hlen] at h
  rw [h]
  have e : specTabWidth render.length = (specTabWidth render.length - 1) + 1 := by omega
  congr 1
  · conv_rhs => rw [e, List.replicate_succ]
    simp
  · omega

theorem renderLoop_spec (cs render : List Nat) :
    renderLoop cs render render.length
      = (cs.foldl specExpandStep render, (cs.foldl specExpandStep render).length) := by
  induction cs generalizing render with
  | nil => simp [renderLoop]
  | cons c cs ih =>
    by_cases hc : c = TAB
    · have h := ih (render ++ List.replicate (specTabWidth render.length) SPACE)
      simp only [List.length_append, List.length_replicate] at h
      simp only [renderLoop, hc, if_true, padLoop_tab, List.foldl_cons, specExpandStep]
      exact h
    · have h := ih (render ++ [c])
      simp only [List.length_append, List.length_singleton] at h
      simp only [renderLoop, hc, if_false, List.foldl_cons, specExpandStep]
      exact h

theorem updateRow_render (row : Row) : (updateRow row).render = specExpand row.chars := by
  have h := renderLoop_spec row.chars []
  simp only [List.length_nil] at h
  simp [updateRow, specExpand, h]

theorem updateRow_rsize (row : Row) :
    (updateRow row).rsize = ((specExpand row.chars).length : Int) := by
  have h := renderLoop_spec row.chars []
  simp only [List.length_nil] at h
  simp [updateRow, specExpand, h]

theorem updateRow_chars (row : Row) : (updateRow row).chars = row.chars := rfl

theorem updateRow_idem (row : Row) : updateRow (updateRow row) = updateRow row := by
  simp [updateRow]

/-- C1. `updateRow` sets `render` to the tab expansion of `chars` with tab stop 4: a byte
other than a tab is copied, a tab becomes `k` spaces with `1 ≤ k ≤ 4` that bring the render
length to the smallest multiple of 4 strictly above the length before the tab; `rsize` is the
length of the expansion, `chars` and `size` are unchanged, and a second `updateRow` changes
nothing. -/
theorem updateRow_tab_expansion (row : Row) :
    (updateRow row).render = specExpand row.chars ∧
    (updateRow row).rsize = ((specExpand row.chars).length : Int) ∧
    (updateRow row).chars = row.chars ∧
    (updateRow row).size = row.size ∧
    (∀ n : Nat, 1 ≤ specTabWidth n ∧ specTabWidth n ≤ 4 ∧ (n + specTabWidth n) % 4 = 0 ∧
      ∀ m : Nat, n < m → m % 4 = 0 → n + specTabWidth n ≤ m) ∧
    updateRow (updateRow row) = updateRow row := by
  refine ⟨updateRow_render row, updateRow_rsize row, rfl, rfl, ?_, updateRow_idem row⟩
  intro n
  unfold specTabWidth TAB_STOP
  refine ⟨by omega, by omega, by omega, ?_⟩
  intro m h1 h2
  omega

/-! ### Lemmas on the render column -/

theorem specExpandStep_length (out : List Nat) (c : Nat) :
    (specExpandStep out c).length
      = (if c = TAB then out.length + ((TAB_STOP - 1) - out.length % TAB_STOP) else out.length)
        + 1 := by
  unfold specExpandStep
  by_cases hc : c = TAB
  · simp only [hc, if_true, List.length_append, List.length_replicate]
    unfold specTabWidth TAB_STOP
    omega
  · simp [hc]

theorem cxToRxLoop_spec (chars : List Nat) (n i : Nat) (out : List Nat)
    (h : i + n ≤ chars.length) :
    cxToRxLoop chars n i out.length
      = some (((chars.drop i).take n).foldl specExpandStep out).length := by
  induction n generalizing i out with
  | zero => simp [cxToRxLoop]
  | succ n ih =>
    have hi : i < chars.length := by omega
    have hget : chars[i]? = some chars[i] := List.getElem?_eq_getElem hi
    rw [List.drop_eq_getElem_cons hi, List.take_succ_cons, List.foldl_cons]
    have step := ih (i + 1) (specExpandStep out chars[i]) (by omega)
    rw [← step, specExpandStep_length]
    simp only [cxToRxLoop, hget]

theorem cxToRxLoop_past (chars : List Nat) (n i rx : Nat) (hn : 0 < n)
    (h : chars.length < i + n) :
    cxToRxLoop chars n i rx = none := by
  induction n generalizing i rx with
  | zero => omega
  | succ n ih =>
    cases hget : chars[i]? with
    | none => simp only [cxToRxLoop, hget]
    | some c =>
      have hi : i < chars.length := by
        by_contra hge
        rw [List.getElem?_eq_none (by omega)] at hget
        exact Option.noConfusion hget
      simp only [cxToRxLoop, hget]
      exact ih (i + 1) _ (by omega) (by omega)

theorem foldl_specExpandStep_no_tab (cs out : List Nat) (h : TAB ∉ cs) :
    cs.foldl specExpandStep out = out ++ cs := by
  induction cs generalizing out with
  | nil => simp
  | cons c cs ih =>
    have hc : c ≠ TAB := fun e => h (by simp [e])
    have hcs : TAB ∉ cs := fun e => h (by simp [e])
    simp [List.foldl_cons, specExpandStep, hc, ih _ hcs]

theorem cxToRx_eq_length (row : Row) (cx : Int) (h1 : cx ≤ row.size) :
    cxToRx row cx = some ((specExpand (row.chars.take cx.toNat)).length : Int) := by
  have hle : 0 + cx.toNat ≤ row.chars.length := by
    unfold Row.size at h1
    omega
  have h := cxToRxLoop_spec row.chars cx.toNat 0 [] hle
  simp only [List.length_nil, List.drop_zero] at h
  simp [cxToRx, specExpand, h]

theorem cxToRx_past_size (row : Row) (cx : Int) (h : row.size < cx) : cxToRx row cx = none := by
  unfold Row.size at h
  have hlt : row.chars.length < 0 + cx.toNat := by omega
  simp [cxToRx, cxToRxLoop_past row.chars cx.toNat 0 0 (by omega) hlt]

/-- C2. For `0 ≤ cx ≤ size`, `cxToRx(row, cx)` is the length of the tab expansion of the
first `cx` bytes of `chars`; at `cx = size` it is the `rsize` that `updateRow` computes; and
on a row without a tab it is `cx`. -/
theorem cxToRx_prefix_expansion (row : Row) (cx : Int) (h0 : 0 ≤ cx) (h1 : cx ≤ row.size) :
    cxToRx row cx = some ((specExpand (row.chars.take cx.toNat)).length : Int) ∧
    cxToRx row row.size = some (updateRow row).rsize ∧
    (TAB ∉ row.chars → cxToRx row cx = some cx) := by
  refine ⟨cxToRx_eq_length row cx h1, ?_, ?_⟩
  · rw [cxToRx_eq_length row row.size (le_refl _), updateRow_rsize]
    simp [Row.size]
  · intro hno
    rw [cxToRx_eq_length row cx h1]
    have hpre : TAB ∉ row.chars.take cx.toNat := fun e => hno (List.mem_of_mem_take e)
    have hlen : cx.toNat ≤ row.chars.length := by
      unfold Row.size at h1
      omega
    simp only [specExpand, foldl_specExpandStep_no_tab _ _ hpre, List.nil_append,
      List.length_take, Nat.min_eq_left hlen]
    rw [Int.toNat_of_nonneg h0]

/-- C2 at the row `a`, tab, `b` and `cx = 2`: the render column is 4. -/
theorem cxToRx_prefix_expansion_witness :
    (0 : Int) ≤ 2 ∧ (2 : Int) ≤ (newRow [97, 9, 98]).size ∧
    cxToRx (newRow [97, 9, 98]) 2 = some 4 ∧
    cxToRx (newRow [97, 9, 98]) (newRow [97, 9, 98]).size
      = some (updateRow (newRow [97, 9, 98])).rsize :=
  ⟨by decide, by decide,
   (cxToRx_prefix_expansion (newRow [97, 9, 98]) 2 (by decide) (by decide)).1.trans (by decide),
   (cxToRx_prefix_expansion (newRow [97, 9, 98]) 2 (by decide) (by decide)).2.1⟩

/-! ### Lemmas on rows and lists of rows -/

theorem rowAt_some {E : Config} {i : Int} {r : Row} (h : E.rowAt i = some r) :
    0 ≤ i ∧ i < E.numrows ∧ E.row[i.toNat]? = some r := by
  unfold Config.rowAt at h
  by_cases hi : i < 0
  · simp [hi] at h
  · simp only [hi, if_false] at h
    obtain ⟨hlt, _⟩ := List.getElem?_eq_some.mp h
    refine ⟨by omega, ?_, h⟩
    unfold Config.numrows
    omega

theorem rowAt_ofNat (E : Config) (k : Nat) : E.rowAt (k : Int) = E.row[k]? := by
  simp [Config.rowAt]

theorem list_split_at {α : Type} {l : List α} {k : Nat} {r : α} (h : l[k]? = some r) :
    l = l.take k ++ r :: l.drop (k + 1) := by
  obtain ⟨hlt, hr⟩ := List.getElem?_eq_some.mp h
  rw [← hr, ← List.drop_eq_getElem_cons hlt, List.take_append_drop]

theorem list_set_at {α : Type} {l : List α} {k : Nat} {r : α} (h : l[k]? = some r) (x : α) :
    l.set k x = l.take k ++ x :: l.drop (k + 1) := by
  obtain ⟨hlt, _⟩ := List.getElem?_eq_some.mp h
  rw [List.set_eq_take_append_cons_drop]
  simp [hlt]

theorem list_take_succ_at {α : Type} {l : List α} {k : Nat} {r : α} (h : l[k]? = some r) :
    l.take (k + 1) = l.take k ++ [r] := by
  rw [List.take_succ, h]
  rfl

theorem list_drop_at {α : Type} {l : List α} {k : Nat} {r : α} (h : l[k]? = some r) :
    l.drop k = r :: l.drop (k + 1) := by
  obtain ⟨hlt, hr⟩ := List.getElem?_eq_some.mp h
  rw [← hr, ← List.drop_eq_getElem_cons hlt]

theorem length_take_lt {α : Type} {l : List α} {k : Nat} {r : α} (h : l[k]? = some r) :
    (l.take k).length = k := by
  obtain ⟨hlt, _⟩ := List.getElem?_eq_some.mp h
  simp
  omega

theorem updateRow_size (row : Row) : (updateRow row).size = row.size := rfl

theorem newRow_chars (s : List Nat) : (newRow s).chars = s := rfl

/-! ### Splitting and joining rows -/

theorem insertNewline_at_zero (E : Config) (k : Nat) (row : Row)
    (hk : E.cy = k) (hget : E.row[k]? = some row) (hz : E.cx = 0) :
    insertNewline E = some
      { E with row := E.row.take k ++ newRow [] :: row :: E.row.drop (k + 1),
               mod := true, cy := (k : Int) + 1, cx := 0 } := by
  obtain ⟨hlt, _⟩ := List.getElem?_eq_some.mp hget
  have hin : ¬ ((k : Int) < 0 ∨ (k : Int) > E.numrows) := by
    unfold Config.numrows
    omega
  simp [insertNewline, hz, insertRow, hk, hin, list_drop_at hget]

theorem insertNewline_at_pos (E : Config) (k : Nat) (row : Row)
    (hk : E.cy = k) (hget : E.row[k]? = some row) (hz : E.cx ≠ 0)
    (hcx0 : 0 ≤ E.cx) (hcx1 : E.cx ≤ row.size) :
    insertNewline E = some
      { E with row := E.row.take k
                 ++ updateRow { row with chars := row.chars.take E.cx.toNat }
                 :: newRow (row.chars.drop E.cx.toNat) :: E.row.drop (k + 1),
               mod := true, cy := (k : Int) + 1, cx := 0 } := by
  obtain ⟨hlt, _⟩ := List.getElem?_eq_some.mp hget
  have hin : ¬ ((k : Int) + 1 < 0 ∨ (k : Int) + 1 > E.numrows) := by
    unfold Config.numrows
    omega
  have hrange : ¬ (E.cx < 0 ∨ E.cx > row.size) := by omega
  have hk1 : ((k : Int) + 1).toNat = k + 1 := by omega
  have hlen : (E.row.take k).length = k := length_take_lt hget
  have hfetch : (List.take (k + 1) E.row
      ++ newRow (List.drop E.cx.toNat row.chars) :: List.drop (k + 1) E.row)[k]? = some row := by
    rw [list_take_succ_at hget, List.append_assoc, List.getElem?_append_right (by omega)]
    simp [hlen]
  have hset : (List.take (k + 1) E.row
      ++ newRow (List.drop E.cx.toNat row.chars) :: List.drop (k + 1) E.row).set k
        (updateRow { row with chars := row.chars.take E.cx.toNat })
      = E.row.take k ++ updateRow { row with chars := row.chars.take E.cx.toNat }
          :: newRow (row.chars.drop E.cx.toNat) :: E.row.drop (k + 1) := by
    rw [list_take_succ_at hget, List.append_assoc, List.set_append_right _ _ (by omega)]
    simp [hlen]
  simp only [insertNewline, hz, if_false, hk, rowAt_ofNat, hget, Option.bind_eq_bind,
    Option.some_bind, hrange, insertRow, hin, hk1, Int.toNat_ofNat, hfetch, hset]

/-- C3. For a cursor on row `cy` with `0 ≤ cx ≤ size`, `insertNewline` (Enter in INSERT mode)
gives one row more: row `cy` holds the first `cx` bytes of the old row, row `cy + 1` the bytes
from `cx` on, the rows before and after are unchanged and in order, and the cursor is at
`(cy + 1, 0)`. On the buffer `abc`, `def` with the cursor at `(cy = 0, cx = 3)` the rows become
`abc`, the empty row, `def` and the cursor `(cy = 1, cx = 0)`. -/
theorem insertNewline_splits (cmd : Config → Option Config) (E : Config) (row : Row)
    (hrow : E.rowAt E.cy = some row) (hcx0 : 0 ≤ E.cx) (hcx1 : E.cx ≤ row.size) :
    (∃ E1 r1 r2, insertNewline E = some E1 ∧
      E1.row = E.row.take E.cy.toNat ++ r1 :: r2 :: E.row.drop (E.cy.toNat + 1) ∧
      r1.chars = row.chars.take E.cx.toNat ∧ r2.chars = row.chars.drop E.cx.toNat ∧
      E1.numrows = E.numrows + 1 ∧ E1.cy = E.cy + 1 ∧ E1.cx = 0) ∧
    (E.mode = Mode.INSERT → handleKeypress cmd ENTER_KEY E = insertNewline E) ∧
    (insertNewline
        { bufferOf [[97, 98, 99], [100, 101, 102]] with mode := Mode.INSERT, cx := 3, cy := 0 }
      ).map (fun E1 => (E1.row.map Row.chars, E1.cy, E1.cx))
      = some ([[97, 98, 99], [], [100, 101, 102]], 1, 0) := by
  obtain ⟨h0, hlt, hget⟩ := rowAt_some hrow
  obtain ⟨k, hk⟩ := Int.eq_ofNat_of_zero_le h0
  have hkk : E.cy.toNat = k := by omega
  rw [hkk] at hget ⊢
  have hnum : ∀ (a b : Row), ((E.row.take k ++ a :: b :: E.row.drop (k + 1)).length : Int)
      = E.numrows + 1 := by
    intro a b
    have e := congrArg List.length (list_split_at hget)
    simp only [List.length_append, List.length_cons] at e ⊢
    unfold Config.numrows
    omega
  refine ⟨?_, ?_, by decide⟩
  · by_cases hz : E.cx = 0
    · refine ⟨_, newRow [], row, insertNewline_at_zero E k row hk hget hz, rfl, ?_, ?_,
        hnum _ _, by simp [hk], rfl⟩
      · simp [hz, newRow_chars]
      · simp [hz]
    · refine ⟨_, _, _, insertNewline_at_pos E k row hk hget hz hcx0 hcx1, rfl, rfl, rfl,
        hnum _ _, by simp [hk], rfl⟩
  · intro hm
    simp [handleKeypress, hm, ENTER_KEY, CtrlKey, ARROW_UP, ARROW_DOWN, ARROW_LEFT, ARROW_RIGHT,
      PAGE_UP, PAGE_DOWN, HOME_KEY, END_KEY, DEL_KEY, BACKSPACE, ESC_KEY]

/-- C3 on the buffer `abc`, `def` with the cursor at the end of the first row. -/
theorem insertNewline_splits_witness :
    ∃ E1 r1 r2,
      insertNewline
        { bufferOf [[97, 98, 99], [100, 101, 102]] with mode := Mode.INSERT, cx := 3, cy := 0 }
        = some E1 ∧
      E1.row = [newRow [97, 98, 99]].take 0 ++ r1 :: r2 :: [newRow [100, 101, 102]] ∧
      r1.chars = [97, 98, 99] ∧ r2.chars = [] ∧ E1.cy = 1 ∧ E1.cx = 0 := by
  obtain ⟨E1, r1, r2, h1, h2, h3, h4, _, h6, h7⟩ :=
    (insertNewline_splits some
      { bufferOf [[97, 98, 99], [100, 101, 102]] with mode := Mode.INSERT, cx := 3, cy := 0 }
      (newRow [97, 98, 99]) (by decide) (by decide) (by decide)).1
  exact ⟨E1, r1, r2, h1, h2, h3, h4, h6, h7⟩

theorem delRow_at (E : Config) (i : Int) (h0 : 0 ≤ i) (h1 : i < E.numrows) :
    delRow i E = { E with row := E.row.eraseIdx i.toNat, mod := true } := by
  have h : ¬ (i < 0 ∨ i ≥ E.numrows) := by omega
  simp [delRow, h]

theorem delChar_join (E : Config) (k : Nat) (prev row : Row)
    (hk : E.cy = (k : Int) + 1) (hprev : E.row[k]? = some prev)
    (hrow : E.row[k + 1]? = some row) (hcx : E.cx = 0) :
    delChar E = some
      { E with row := E.row.take k
                 ++ updateRow { prev with chars := prev.chars ++ row.chars }
                 :: E.row.drop (k + 2),
               mod := true, cx := prev.size, cy := k } := by
  obtain ⟨hlt, _⟩ := List.getElem?_eq_some.mp hrow
  have hne : ¬ ((k : Int) + 1 = E.numrows) := by
    unfold Config.numrows
    omega
  have hk1 : ((k : Int) + 1).toNat = k + 1 := by omega
  have hlen : (E.row.take k).length = k := length_take_lt hprev
  have hrow1 : E.rowAt ((k : Int) + 1) = some row := by
    have := rowAt_ofNat E (k + 1)
    rw [hrow] at this
    rw [← this]
    congr 1
  have herase : (E.row.set k (updateRow { prev with chars := prev.chars ++ row.chars })).eraseIdx
        (k + 1)
      = E.row.take k ++ updateRow { prev with chars := prev.chars ++ row.chars }
          :: E.row.drop (k + 2) := by
    rw [list_set_at hprev, list_drop_at hrow, List.eraseIdx_append_of_length_le (by omega), hlen]
    simp
  have hnz : ¬ ((k : Int) + 1 = 0) := by omega
  simp only [delChar, hk, hne, if_false, hcx, hrow1, Option.bind_eq_bind, Option.some_bind,
    rowAppendString, add_sub_cancel_right, rowAt_ofNat, hprev, hnz, and_false, gt_iff_lt,
    lt_self_iff_false]
  rw [delRow_at _ _ (by omega) (by simp only [Config.numrows, List.length_set]; omega)]
  simp only [hk1, Int.toNat_ofNat, herase, add_sub_cancel_right]

/-- C4. For a cursor on row `cy` with `0 ≤ cx ≤ size`, `insertNewline` followed by `delChar`
gives back the rows: the same number of rows, the same `chars` in the same order (row `cy`
with its `render` recomputed, every other row untouched), and the cursor is again at
`(cx, cy)`. -/
theorem insertNewline_delChar_inverse (E : Config) (row : Row)
    (hrow : E.rowAt E.cy = some row) (hcx0 : 0 ≤ E.cx) (hcx1 : E.cx ≤ row.size) :
    ∃ E1 E2, insertNewline E = some E1 ∧ E1.cx = 0 ∧ E1.cy = E.cy + 1 ∧
      delChar E1 = some E2 ∧
      E2.row = E.row.take E.cy.toNat ++ updateRow row :: E.row.drop (E.cy.toNat + 1) ∧
      E2.row.map Row.chars = E.row.map Row.chars ∧
      (E2.rowAt E.cy).map Row.chars = some row.chars ∧
      E2.numrows = E.numrows ∧ E2.cx = E.cx ∧ E2.cy = E.cy ∧
      (updateRow row = row → E2.row = E.row) := by
  obtain ⟨h0, hlt, hget⟩ := rowAt_some hrow
  obtain ⟨k, hk⟩ := Int.eq_ofNat_of_zero_le h0
  have hkk : E.cy.toNat = k := by omega
  rw [hkk] at hget ⊢
  have hlen : (E.row.take k).length = k := length_take_lt hget
  have hsplit := list_split_at hget
  have hcxn : E.cx.toNat ≤ row.chars.length := by
    unfold Row.size at hcx1
    omega
  -- the state after the split, in both cases of `insertNewline`
  obtain ⟨r1, r2, hE1, hr1, hr2⟩ : ∃ r1 r2, insertNewline E = some
      { E with row := E.row.take k ++ r1 :: r2 :: E.row.drop (k + 1),
               mod := true, cy := (k : Int) + 1, cx := 0 } ∧
      r1.chars = row.chars.take E.cx.toNat ∧ r2.chars = row.chars.drop E.cx.toNat := by
    by_cases hz : E.cx = 0
    · exact ⟨newRow [], row, insertNewline_at_zero E k row hk hget hz, by simp [hz, newRow_chars],
        by simp [hz]⟩
    · exact ⟨_, _, insertNewline_at_pos E k row hk hget hz hcx0 hcx1, rfl, rfl⟩
  have hp : (E.row.take k ++ r1 :: r2 :: E.row.drop (k + 1))[k]? = some r1 := by
    rw [List.getElem?_append_right (by omega)]
    simp [hlen]
  have hr : (E.row.take k ++ r1 :: r2 :: E.row.drop (k + 1))[k + 1]? = some r2 := by
    rw [List.getElem?_append_right (by omega)]
    simp [hlen]
  have hjoin := delChar_join
    { E with row := E.row.take k ++ r1 :: r2 :: E.row.drop (k + 1),
             mod := true, cy := (k : Int) + 1, cx := 0 } k r1 r2 rfl hp hr rfl
  have hupd : updateRow { r1 with chars := r1.chars ++ r2.chars } = updateRow row := by
    simp [updateRow, hr1, hr2]
  have hrows : List.take k (E.row.take k ++ r1 :: r2 :: E.row.drop (k + 1))
        ++ updateRow { r1 with chars := r1.chars ++ r2.chars }
        :: List.drop (k + 2) (E.row.take k ++ r1 :: r2 :: E.row.drop (k + 1))
      = E.row.take k ++ updateRow row :: E.row.drop (k + 1) := by
    rw [hupd, List.take_append_of_le_length (by omega), List.drop_append_eq_append_drop, hlen]
    simp [List.take_take]
  simp only [hrows] at hjoin
  have hsize : r1.size = E.cx := by
    unfold Row.size
    rw [hr1, List.length_take, Nat.min_eq_left hcxn]
    omega
  have hchars : (E.row.take k ++ updateRow row :: E.row.drop (k + 1)).map Row.chars
      = E.row.map Row.chars := by
    conv_rhs => rw [hsplit]
    simp [updateRow_chars]
  refine ⟨_, _, hE1, rfl, by simp [hk], hjoin, rfl, hchars, ?_, ?_, hsize, hk.symm, ?_⟩
  · simp only [hk, rowAt_ofNat]
    rw [List.getElem?_append_right (by omega)]
    simp [hlen, updateRow_chars]
  · have e := congrArg List.length hsplit
    simp only [Config.numrows, List.length_append, List.length_cons] at e ⊢
    omega
  · intro hsync
    show E.row.take k ++ updateRow row :: E.row.drop (k + 1) = E.row
    rw [hsync]
    exact hsplit.symm

/-- C4 on the buffer `abc`, `def` with the cursor in the middle of the first row. -/
theorem insertNewline_delChar_inverse_witness :
    ∃ E1 E2,
      insertNewline
        { bufferOf [[97, 98, 99], [100, 101, 102]] with mode := Mode.INSERT, cx := 2, cy := 0 }
        = some E1 ∧
      delChar E1 = some E2 ∧
      E2.row.map Row.chars = [[97, 98, 99], [100, 101, 102]] ∧ E2.cx = 2 ∧ E2.cy = 0 := by
  obtain ⟨E1, E2, h1, _, _, h2, _, h3, _, _, h4, h5, _⟩ :=
    insertNewline_delChar_inverse
      { bufferOf [[97, 98, 99], [100, 101, 102]] with mode := Mode.INSERT, cx := 2, cy := 0 }
      (newRow [97, 98, 99]) (by decide) (by decide) (by decide)
  exact ⟨E1, E2, h1, h2, h3, h4, h5⟩

/-! ### Cursor moves and the viewport -/

/-- C5, the code at an empty row. In NORMAL mode with the cursor at `cx = 0` on the only row,
which is empty, or in the empty buffer, each of the four directions leaves `cx = -1`, below
the clamp range `[0, max(0, size - 1)] = [0, 0]`: the clamp `if (E.mode == NORMAL && E.cx ==
currRowLen) E.cx--;` steps back from the end of the row also when the row has no byte. -/
theorem moveCursor_normal_empty_row :
    (bufferOf [[]]).mode = Mode.NORMAL ∧ (bufferOf [[]]).cx = 0 ∧ (bufferOf [[]]).cy = 0 ∧
    ((bufferOf [[]]).rowAt 0).map Row.size = some 0 ∧
    (moveCursor ARROW_UP (bufferOf [[]])).map (fun E => (E.cx, E.cy)) = some (-1, 0) ∧
    (moveCursor ARROW_DOWN (bufferOf [[]])).map (fun E => (E.cx, E.cy)) = some (-1, 0) ∧
    (moveCursor ARROW_LEFT (bufferOf [[]])).map (fun E => (E.cx, E.cy)) = some (-1, 0) ∧
    (moveCursor ARROW_RIGHT (bufferOf [[]])).map (fun E => (E.cx, E.cy)) = some (-1, 0) ∧
    (moveCursor ARROW_DOWN (init 24 80)).map (fun E => (E.cx, E.cy)) = some (-1, 0) := by
  decide

theorem moveCursor_right_in_row (E : Config) (row : Row)
    (hrow : E.rowAt E.cy = some row) (hm : E.mode = Mode.INSERT) (h : E.cx ≤ row.size - 1) :
    moveCursor ARROW_RIGHT E = some { E with cx := E.cx + 1 } := by
  obtain ⟨h0, hlt, hget⟩ := rowAt_some hrow
  simp only [Config.numrows] at hlt
  have hneg : ¬ (E.cy < 0) := by omega
  have h1 : ¬ ((E.row.length : Int) ≤ E.cy) := by omega
  have h2 : ¬ (row.size < E.cx + 1) := by omega
  simp [moveCursor, moveCursorSwitch, currRowLen, ARROW_RIGHT, ARROW_LEFT, Config.numrows,
    Config.rowAt, hneg, hget, h1, h, h2, hm]

theorem scrollOffsets_viewport (E : Config) (hr : 1 ≤ E.screenrows) (hc : 1 ≤ E.screencols) :
    (scrollOffsets E).rowoff ≤ (scrollOffsets E).cy ∧
    (scrollOffsets E).cy < (scrollOffsets E).rowoff + (scrollOffsets E).screenrows ∧
    (scrollOffsets E).coloff ≤ (scrollOffsets E).rx ∧
    (scrollOffsets E).rx < (scrollOffsets E).coloff + (scrollOffsets E).screencols ∧
    scrollOffsets E
      = { E with rowoff := (scrollOffsets E).rowoff, coloff := (scrollOffsets E).coloff } := by
  unfold scrollOffsets
  by_cases h1 : E.cy < E.rowoff <;> by_cases h2 : E.cy ≥ E.rowoff + E.screenrows <;>
    by_cases h3 : E.rx < E.coloff <;> by_cases h4 : E.rx ≥ E.coloff + E.screencols <;>
    by_cases h5 : E.cy ≥ E.cy + E.screenrows <;> by_cases h6 : E.rx ≥ E.rx + E.screencols <;>
    simp only [h1, h2, h3, h4, h5, h6, if_true, if_false] <;>
    first
      | omega
      | (refine ⟨by omega, by omega, by omega, by omega, ?_⟩; simp)

theorem scroll_eq (E : Config) (rx : Int)
    (h : (if E.cy < E.numrows then (E.rowAt E.cy).bind (fun r => cxToRx r E.cx) else some 0)
      = some rx) :
    scroll E = some (scrollOffsets { E with rx := rx }) := by
  simp only [scroll, h, Option.bind_eq_bind, Option.some_bind]

theorem scroll_some (E E1 : Config) (h : scroll E = some E1) :
    ∃ rx : Int, E1 = scrollOffsets { E with rx := rx } ∧
      (∀ row, E.rowAt E.cy = some row → cxToRx row E.cx = some rx) ∧
      (E.numrows ≤ E.cy → rx = 0) := by
  cases hrx : (if E.cy < E.numrows then (E.rowAt E.cy).bind (fun r => cxToRx r E.cx)
      else some 0) with
  | none =>
    simp only [scroll, hrx, Option.bind_eq_bind, Option.none_bind] at h
    exact Option.noConfusion h
  | some rx =>
    rw [scroll_eq E rx hrx] at h
    refine ⟨rx, (Option.some.inj h).symm, ?_, ?_⟩
    · intro row hrow
      have hlt : E.cy < E.numrows := (rowAt_some hrow).2.1
      rw [if_pos hlt, hrow, Option.some_bind] at hrx
      exact hrx
    · intro hge
      rw [if_neg (by omega)] at hrx
      exact (Option.some.inj hrx).symm

theorem scroll_past_size (E : Config) (row : Row) (hrow : E.rowAt E.cy = some row)
    (h : row.size < E.cx) : scroll E = none := by
  have hlt : E.cy < E.numrows := (rowAt_some hrow).2.1
  simp only [scroll, if_pos hlt, hrow, Option.some_bind, cxToRx_past_size row E.cx h,
    Option.bind_eq_bind, Option.none_bind]

/-- C6. With at least one screen row and one screen column and `cy ≥ 0`: (1) when `cx` is at
most the size of the row at `cy`, so that `cxToRx` reads only bytes of the row, `scroll`
returns a state whose viewport holds the cursor, `rowoff ≤ cy < rowoff + screenrows` and
`coloff ≤ rx < coloff + screencols`, where `rx` is `cxToRx` of the row at `cy` (0 when `cy` is
past the last row), and only `rx`, `rowoff` and `coloff` change; (2) whatever value `rx` the
call of `cxToRx` gives, also one computed from bytes past the row, the adjustment of the
offsets that follows puts the cursor in the viewport and changes only `rowoff` and `coloff`;
(3) every state that `scroll` returns, for any `cx`, has the cursor in its viewport, has for
`rx` the result of `cxToRx` on the row at `cy` (0 when `cy` is past the last row), and differs
from the state before in `rx`, `rowoff` and `coloff` only. -/
theorem scroll_viewport (E : Config) (hr : 1 ≤ E.screenrows) (hc : 1 ≤ E.screencols)
    (hcy : 0 ≤ E.cy) :
    ((∀ row, E.rowAt E.cy = some row → E.cx ≤ row.size) →
      ∃ E1, scroll E = some E1 ∧
        E1.rowoff ≤ E1.cy ∧ E1.cy < E1.rowoff + E1.screenrows ∧
        E1.coloff ≤ E1.rx ∧ E1.rx < E1.coloff + E1.screencols ∧
        (∀ row, E.rowAt E.cy = some row → cxToRx row E.cx = some E1.rx) ∧
        (E.numrows ≤ E.cy → E1.rx = 0) ∧
        E1 = { E with rx := E1.rx, rowoff := E1.rowoff, coloff := E1.coloff } ∧
        E1.cx = E.cx ∧ E1.cy = E.cy ∧ E1.mode = E.mode ∧ E1.row = E.row) ∧
    (∀ rx : Int, ∃ E1, scrollOffsets { E with rx := rx } = E1 ∧
        E1.rowoff ≤ E1.cy ∧ E1.cy < E1.rowoff + E1.screenrows ∧
        E1.coloff ≤ E1.rx ∧ E1.rx < E1.coloff + E1.screencols ∧ E1.rx = rx ∧
        E1 = { E with rx := rx, rowoff := E1.rowoff, coloff := E1.coloff } ∧
        E1.cx = E.cx ∧ E1.cy = E.cy ∧ E1.mode = E.mode ∧ E1.row = E.row) ∧
    (∀ E1, scroll E = some E1 →
      E1.rowoff ≤ E1.cy ∧ E1.cy < E1.rowoff + E1.screenrows ∧
      E1.coloff ≤ E1.rx ∧ E1.rx < E1.coloff + E1.screencols ∧
      (∀ row, E.rowAt E.cy = some row → cxToRx row E.cx = some E1.rx) ∧
      (E.numrows ≤ E.cy → E1.rx = 0) ∧
      E1 = { E with rx := E1.rx, rowoff := E1.rowoff, coloff := E1.coloff } ∧
      E1.cx = E.cx ∧ E1.cy = E.cy ∧ E1.mode = E.mode ∧ E1.row = E.row) := by
  have part2 : ∀ rx : Int, ∃ E1, scrollOffsets { E with rx := rx } = E1 ∧
      E1.rowoff ≤ E1.cy ∧ E1.cy < E1.rowoff + E1.screenrows ∧
      E1.coloff ≤ E1.rx ∧ E1.rx < E1.coloff + E1.screencols ∧ E1.rx = rx ∧
      E1 = { E with rx := rx, rowoff := E1.rowoff, coloff := E1.coloff } ∧
      E1.cx = E.cx ∧ E1.cy = E.cy ∧ E1.mode = E.mode ∧ E1.row = E.row := by
    intro rx
    obtain ⟨a1, a2, a3, a4, a5⟩ := scrollOffsets_viewport { E with rx := rx } hr hc
    refine ⟨_, rfl, a1, a2, a3, a4, ?_, a5, ?_, ?_, ?_, ?_⟩ <;> rw [a5]
  have part3 : ∀ E1, scroll E = some E1 →
      E1.rowoff ≤ E1.cy ∧ E1.cy < E1.rowoff + E1.screenrows ∧
      E1.coloff ≤ E1.rx ∧ E1.rx < E1.coloff + E1.screencols ∧
      (∀ row, E.rowAt E.cy = some row → cxToRx row E.cx = some E1.rx) ∧
      (E.numrows ≤ E.cy → E1.rx = 0) ∧
      E1 = { E with rx := E1.rx, rowoff := E1.rowoff, coloff := E1.coloff } ∧
      E1.cx = E.cx ∧ E1.cy = E.cy ∧ E1.mode = E.mode ∧ E1.row = E.row := by
    intro E1 hE1
    obtain ⟨rx, e1, e2, e3⟩ := scroll_some E E1 hE1
    obtain ⟨E2, h1, b1, b2, b3, b4, b5, b6, b7, b8, b9, b10⟩ := part2 rx
    have e : E1 = E2 := e1.trans h1
    rw [e]
    refine ⟨b1, b2, b3, b4, ?_, ?_, ?_, b7, b8, b9, b10⟩
    · intro row hrow2
      rw [b5]
      exact e2 row hrow2
    · intro hge
      rw [b5]
      exact e3 hge
    · rw [b5]
      exact b6
  refine ⟨?_, part2, part3⟩
  intro hcx
  obtain ⟨rx, hrx, hrow, hpast⟩ : ∃ rx : Int,
      (if E.cy < E.numrows then (E.rowAt E.cy).bind (fun r => cxToRx r E.cx) else some 0)
        = some rx ∧
      (∀ row, E.rowAt E.cy = some row → cxToRx row E.cx = some rx) ∧
      (E.numrows ≤ E.cy → rx = 0) := by
    by_cases hlt : E.cy < E.numrows
    · obtain ⟨k, hk⟩ := Int.eq_ofNat_of_zero_le hcy
      have hkl : k < E.row.length := by
        unfold Config.numrows at hlt
        omega
      have hget : E.rowAt E.cy = some E.row[k] := by
        rw [hk, rowAt_ofNat]
        exact List.getElem?_eq_getElem hkl
      have hval := cxToRx_eq_length E.row[k] E.cx (hcx _ hget)
      refine ⟨_, by rw [if_pos hlt, hget, Option.some_bind, hval], ?_,
        fun h => absurd hlt (by omega)⟩
      intro row hr2
      rw [hget] at hr2
      rw [← Option.some.inj hr2, hval]
    · refine ⟨0, by rw [if_neg hlt], ?_, fun _ => rfl⟩
      intro row hr2
      exact absurd (rowAt_some hr2).2.1 hlt
  obtain ⟨E1, h1, b1, b2, b3, b4, b5, b6, b7, b8, b9, b10⟩ := part2 rx
  refine ⟨E1, by rw [scroll_eq E rx hrx, h1], b1, b2, b3, b4, ?_, ?_, ?_, b7, b8, b9, b10⟩
  · intro row hrow2
    rw [b5]
    exact hrow row hrow2
  · intro hge
    rw [b5]
    exact hpast hge
  · rw [b5]
    exact b6

/-- C6 on the one-row buffer `a`, tab, `b` with a window of one row and one column and the
cursor at `cx = 2`: the render column is 4 and the offsets follow the cursor. -/
theorem scroll_viewport_witness :
    (∀ row,
      Config.rowAt { bufferOf [[97, 9, 98]] with screenrows := 1, screencols := 1, cx := 2 } 0
        = some row → (2 : Int) ≤ row.size) ∧
    ∃ E1, scroll { bufferOf [[97, 9, 98]] with screenrows := 1, screencols := 1, cx := 2 }
        = some E1 ∧
      E1.rowoff ≤ E1.cy ∧ E1.cy < E1.rowoff + E1.screenrows ∧
      E1.coloff ≤ E1.rx ∧ E1.rx < E1.coloff + E1.screencols ∧ E1.rx = 4 := by
  have hrows : ∀ row,
      Config.rowAt { bufferOf [[97, 9, 98]] with screenrows := 1, screencols := 1, cx := 2 } 0
        = some row → (2 : Int) ≤ row.size := by
    intro row h
    have e : newRow [97, 9, 98] = row := Option.some.inj h
    rw [← e]
    decide
  obtain ⟨E1, h1, h2, h3, h4, h5, h6, _⟩ :=
    (scroll_viewport { bufferOf [[97, 9, 98]] with screenrows := 1, screencols := 1, cx := 2 }
      (by decide) (by decide) (by decide)).1 hrows
  have h7 : some E1.rx = some 4 := (h6 (newRow [97, 9, 98]) (by decide)).symm.trans (by decide)
  exact ⟨hrows, E1, h1, h2, h3, h4, h5, Option.some.inj h7⟩

/-- The keys `x`, `x` on the row tab, `b` with the cursor on `b` leave an empty row and
`cx = 1`. The loop of `cxToRx` then reads `chars[0]`, which is no byte of the row (the buffer
still holds the tab there), so `scroll` has no result in the embedding; with the column 4 that
the tab gives, the adjustment of the offsets holds the cursor. -/
theorem scroll_after_two_x (cmd : Config → Option Config) :
    (handleKeys cmd [120, 120] { bufferOf [[9, 98]] with cx := 1 }).map
        (fun E => (E.cx, E.row.map Row.chars, scroll E)) = some (1, [[]], none) ∧
    (handleKeys cmd [120, 120] { bufferOf [[9, 98]] with cx := 1 }).map
        (fun E => ((scrollOffsets { E with rx := 4 }).rx,
          (scrollOffsets { E with rx := 4 }).coloff,
          (scrollOffsets { E with rx := 4 }).screencols)) = some (4, 0, 80) :=
  ⟨rfl, rfl⟩

/-! ### Key dispatch -/

theorem handleKeypress_i (cmd : Config → Option Config) (E : Config)
    (hm : E.mode = Mode.NORMAL) :
    handleKeypress cmd 105 E = some { E with mode := Mode.INSERT } := by
  simp [handleKeypress, hm, CtrlKey, ARROW_UP, ARROW_DOWN, ARROW_LEFT, ARROW_RIGHT]

theorem handleKeypress_a (cmd : Config → Option Config) (E : Config) (row : Row)
    (hm : E.mode = Mode.NORMAL) (hrow : E.rowAt E.cy = some row) (h1 : E.cx < row.size) :
    handleKeypress cmd 97 E = some { E with mode := Mode.INSERT, cx := E.cx + 1 } := by
  obtain ⟨h0, hlt, hget⟩ := rowAt_some hrow
  have hn : E.row ≠ [] := by
    intro e
    simp [Config.numrows, e] at hlt
    omega
  have hmove := moveCursor_right_in_row { E with mode := Mode.INSERT } row hrow rfl
    (show E.cx ≤ row.size - 1 by omega)
  have hrow1 : Config.rowAt { E with mode := Mode.INSERT } E.cy = some row := hrow
  simp [handleKeypress, hm, CtrlKey, ARROW_UP, ARROW_DOWN, ARROW_LEFT, Config.numrows, hn,
    hrow1, h1]
  simpa [ARROW_RIGHT] using hmove

theorem handleKeypress_esc (cmd : Config → Option Config) (E : Config) (row : Row)
    (hrow : E.rowAt E.cy = some row) :
    handleKeypress cmd ESC_KEY E = some
      (if E.cx = row.size then { E with mode := Mode.NORMAL, cx := E.cx - 1 }
       else { E with mode := Mode.NORMAL }) := by
  obtain ⟨h0, hlt, hget⟩ := rowAt_some hrow
  have hn : 0 < E.row.length := by
    simp only [Config.numrows] at hlt
    omega
  have hrow1 : Config.rowAt { E with mode := Mode.NORMAL } E.cy = some row := hrow
  simp [handleKeypress, ESC_KEY, CtrlKey, ARROW_UP, ARROW_DOWN, ARROW_LEFT, ARROW_RIGHT,
    PAGE_UP, PAGE_DOWN, HOME_KEY, END_KEY, DEL_KEY, BACKSPACE, Config.numrows, hn, hrow1]

/-- C7. In NORMAL mode with the cursor on a row of size `N > 0` and `0 ≤ cx ≤ N - 1`, the key
`i` or `a` followed by ESC leaves the rows unchanged and ends in NORMAL mode on the same row
with `0 ≤ cx ≤ N - 1`. -/
theorem normal_insert_normal_clamp (cmd : Config → Option Config) (E : Config) (row : Row)
    (c : Int) (hc : c = 105 ∨ c = 97) (hm : E.mode = Mode.NORMAL)
    (hrow : E.rowAt E.cy = some row) (hN : 0 < row.size)
    (h0 : 0 ≤ E.cx) (h1 : E.cx ≤ row.size - 1) :
    ∃ E1 E2, handleKeypress cmd c E = some E1 ∧ E1.mode = Mode.INSERT ∧ E1.row = E.row ∧
      handleKeypress cmd ESC_KEY E1 = some E2 ∧
      E2.mode = Mode.NORMAL ∧ E2.row = E.row ∧ E2.cy = E.cy ∧
      0 ≤ E2.cx ∧ E2.cx ≤ row.size - 1 := by
  rcases hc with rfl | rfl
  · refine ⟨_, _, handleKeypress_i cmd E hm, rfl, rfl,
      handleKeypress_esc cmd { E with mode := Mode.INSERT } row hrow, ?_⟩
    have hne : ¬ (E.cx = row.size) := by omega
    rw [if_neg hne]
    exact ⟨rfl, rfl, rfl, h0, h1⟩
  · refine ⟨_, _, handleKeypress_a cmd E row hm hrow (by omega), rfl, rfl,
      handleKeypress_esc cmd { E with mode := Mode.INSERT, cx := E.cx + 1 } row hrow, ?_⟩
    by_cases he : E.cx + 1 = row.size
    · rw [if_pos he]
      exact ⟨rfl, rfl, rfl, by show 0 ≤ E.cx + 1 - 1; omega, by show E.cx + 1 - 1 ≤ _; omega⟩
    · rw [if_neg he]
      exact ⟨rfl, rfl, rfl, by show 0 ≤ E.cx + 1; omega, by show E.cx + 1 ≤ row.size - 1; omega⟩

/-- C7 on the one-row buffer `ab` with the cursor on `b`: the key `a` moves past the end of
the row and ESC steps back onto `b`. -/
theorem normal_insert_normal_clamp_witness :
    ∃ E1 E2, handleKeypress some 97 { bufferOf [[97, 98]] with cx := 1 } = some E1 ∧
      handleKeypress some ESC_KEY E1 = some E2 ∧
      E2.mode = Mode.NORMAL ∧ E2.row = [newRow [97, 98]] ∧ 0 ≤ E2.cx ∧ E2.cx ≤ 2 - 1 := by
  obtain ⟨E1, E2, h1, _, _, h2, h3, h4, _, h5, h6⟩ :=
    normal_insert_normal_clamp some { bufferOf [[97, 98]] with cx := 1 } (newRow [97, 98]) 97
      (Or.inr rfl) (by decide) (by decide) (by decide) (by decide) (by decide)
  exact ⟨E1, E2, h1, h2, h3, h4, h5, h6⟩

theorem rowDelChar_in_row (E : Config) (k : Nat) (row : Row) (idx : Int)
    (hget : E.row[k]? = some row) (h0 : 0 ≤ idx) (h1 : idx < row.size) :
    rowDelChar k idx E = some
      { E with row := E.row.take k
                 ++ updateRow { row with chars := row.chars.take idx.toNat
                                                   ++ row.chars.drop (idx.toNat + 1) }
                 :: E.row.drop (k + 1),
               mod := true } := by
  have hr : ¬ (idx < 0 ∨ idx > row.size) := by omega
  have hs : ¬ (row.size = 0) := by omega
  have hlen : (row.chars.take idx.toNat ++ row.chars.drop (idx.toNat + 1)).length
      ≤ (row.size - 1).toNat := by
    unfold Row.size at h1 ⊢
    simp only [List.length_append, List.length_take, List.length_drop]
    omega
  simp only [rowDelChar, rowAt_ofNat, hget, Option.bind_eq_bind, Option.some_bind, hr, hs,
    if_false, List.take_of_length_le hlen, Int.toNat_ofNat, list_set_at hget]

theorem handleKeypress_x_in_row (cmd : Config → Option Config) (E : Config) (k : Nat)
    (row : Row) (hm : E.mode = Mode.NORMAL) (hk : E.cy = k) (hget : E.row[k]? = some row)
    (h0 : 0 ≤ E.cx) (h1 : E.cx < row.size) :
    handleKeypress cmd 120 E = some
      { E with row := E.row.take k
                 ++ updateRow { row with chars := row.chars.take E.cx.toNat
                                                   ++ row.chars.drop (E.cx.toNat + 1) }
                 :: E.row.drop (k + 1),
               mod := true } := by
  obtain ⟨hlt, _⟩ := List.getElem?_eq_some.mp hget
  have hsz : 0 < row.size := by omega
  have hne : ¬ ((k : Int) = E.row.length) := by omega
  have hnz : ¬ (E.cx + 1 = 0) := by omega
  have hpos : E.cx + 1 > 0 := by omega
  have hx : delChar { E with cx := E.cx + 1 } = some
      { E with row := E.row.take k
                 ++ updateRow { row with chars := row.chars.take E.cx.toNat
                                                   ++ row.chars.drop (E.cx.toNat + 1) }
                 :: E.row.drop (k + 1),
               mod := true } := by
    simp only [delChar, Config.numrows, hk, hne, if_false, hnz, false_and, rowAt_ofNat, hget,
      Option.bind_eq_bind, Option.some_bind, hpos, if_true, add_sub_cancel_right]
    rw [rowDelChar_in_row { E with cx := E.cx + 1, cy := (k : Int) } k row E.cx hget h0 h1]
    simp
  simp only [handleKeypress, hm, hk, rowAt_ofNat, hget, Option.bind_eq_bind, Option.some_bind,
    hsz, gt_iff_lt, if_true]
  simpa [CtrlKey, ARROW_UP, ARROW_DOWN, ARROW_LEFT, ARROW_RIGHT, PAGE_UP, PAGE_DOWN, HOME_KEY,
    END_KEY, DEL_KEY, BACKSPACE, hk, hm] using hx

theorem handleKeypress_x_empty_row (cmd : Config → Option Config) (E : Config) (row : Row)
    (hm : E.mode = Mode.NORMAL) (hrow : E.rowAt E.cy = some row) (hz : row.size = 0) :
    handleKeypress cmd 120 E = some E := by
  simp [handleKeypress, hm, hrow, hz, CtrlKey, ARROW_UP, ARROW_DOWN, ARROW_LEFT, ARROW_RIGHT,
    PAGE_UP, PAGE_DOWN, HOME_KEY, END_KEY, DEL_KEY, BACKSPACE]

theorem handleKeys_x_fixed (cmd : Config → Option Config) (E : Config)
    (h : handleKeypress cmd 120 E = some E) (n : Nat) :
    handleKeys cmd (List.replicate n 120) E = some E := by
  induction n with
  | zero => rfl
  | succ n ih => simp [List.replicate_succ, handleKeys, h, ih]

/-- C8. In NORMAL mode with the cursor on row `cy`: for `0 ≤ cx < size` the key `x` removes
the byte at offset `cx` of that row and nothing else, every other row, the number of rows and
the cursor `(cx, cy)` staying as they were; on a row of size 0 the key `x` changes nothing. On
the buffer `ab` with the cursor at `(0, 0)`, two presses of `x` give the buffer of one empty
row, and so does any larger number of presses. -/
theorem x_deletes_under_cursor (cmd : Config → Option Config) (E : Config) (row : Row)
    (hm : E.mode = Mode.NORMAL) (hrow : E.rowAt E.cy = some row) :
    (0 ≤ E.cx → E.cx < row.size →
      ∃ E1 r1, handleKeypress cmd 120 E = some E1 ∧
        E1.row = E.row.take E.cy.toNat ++ r1 :: E.row.drop (E.cy.toNat + 1) ∧
        r1.chars = row.chars.take E.cx.toNat ++ row.chars.drop (E.cx.toNat + 1) ∧
        E1.numrows = E.numrows ∧ E1.cx = E.cx ∧ E1.cy = E.cy) ∧
    (row.size = 0 → handleKeypress cmd 120 E = some E) ∧
    (∀ n : Nat, (handleKeys cmd (List.replicate (n + 2) 120) (bufferOf [[97, 98]])).map
        (fun E1 => (E1.row.map Row.chars, E1.cx, E1.cy)) = some ([[]], 0, 0)) := by
  obtain ⟨hc0, hlt, hget⟩ := rowAt_some hrow
  obtain ⟨k, hk⟩ := Int.eq_ofNat_of_zero_le hc0
  have hkk : E.cy.toNat = k := by omega
  rw [hkk] at hget ⊢
  refine ⟨?_, handleKeypress_x_empty_row cmd E row hm hrow, ?_⟩
  · intro h0 h1
    refine ⟨_, _, handleKeypress_x_in_row cmd E k row hm hk hget h0 h1, rfl, rfl, ?_, rfl, rfl⟩
    have e := congrArg List.length (list_split_at hget)
    simp only [Config.numrows, List.length_append, List.length_cons] at e ⊢
    omega
  · intro n
    have h1 : handleKeypress cmd 120 (bufferOf [[97, 98]])
        = some { bufferOf [[98]] with mod := true } := by
      rw [handleKeypress_x_in_row cmd (bufferOf [[97, 98]]) 0 (newRow [97, 98]) rfl rfl rfl
        (by decide) (by decide)]
      rfl
    have h2 : handleKeypress cmd 120 { bufferOf [[98]] with mod := true }
        = some { bufferOf [[]] with mod := true } := by
      rw [handleKeypress_x_in_row cmd { bufferOf [[98]] with mod := true } 0 (newRow [98]) rfl
        rfl rfl (by decide) (by decide)]
      rfl
    have h3 : handleKeypress cmd 120 { bufferOf [[]] with mod := true }
        = some { bufferOf [[]] with mod := true } :=
      handleKeypress_x_empty_row cmd _ (newRow []) rfl rfl rfl
    simp only [List.replicate_succ, handleKeys, h1, h2, Option.some_bind,
      handleKeys_x_fixed cmd _ h3 n]
    rfl

/-- C8 on the buffer `ab` with the cursor on `a`: the key `x` leaves the row `b`. -/
theorem x_deletes_under_cursor_witness :
    ∃ E1 r1, handleKeypress some 120 (bufferOf [[97, 98]]) = some E1 ∧
      E1.row = [] ++ r1 :: [] ∧ r1.chars = [98] ∧ E1.cx = 0 ∧ E1.cy = 0 := by
  obtain ⟨E1, r1, h1, h2, h3, _, h4, h5⟩ :=
    (x_deletes_under_cursor some (bufferOf [[97, 98]]) (newRow [97, 98]) rfl rfl).1
      (by decide) (by decide)
  exact ⟨E1, r1, h1, h2, h3, h4, h5⟩

/-- C9, the code at a last row. In INSERT mode on the buffer of the empty row and the row
`ab`, with the cursor at `(cx = 0, cy = 1)` on the byte `a`, the Delete key changes nothing:
the guard reads `E.row[E.cx].size`, the size of row 0, where the size of row `cy` is meant, and
`0 < 0` fails on the last row. With the row `c` in place of the empty row the same key at the
same cursor does remove the byte `a`. -/
theorem delete_key_guard_reads_row_cx (cmd : Config → Option Config) :
    handleKeypress cmd DEL_KEY
        { bufferOf [[], [97, 98]] with mode := Mode.INSERT, cx := 0, cy := 1 }
      = some { bufferOf [[], [97, 98]] with mode := Mode.INSERT, cx := 0, cy := 1 } ∧
    (handleKeypress cmd DEL_KEY
        { bufferOf [[99], [97, 98]] with mode := Mode.INSERT, cx := 0, cy := 1 }).map
        (fun E => (E.row.map Row.chars, E.cx, E.cy))
      = some ([[99], [98]], 0, 1) :=
  ⟨rfl, rfl⟩

/-- C10. With the cursor at column 0 of row `cy`, `1 ≤ cy < numrows`, `delChar` (Backspace or
Ctrl-H in INSERT mode) joins the rows: row `cy - 1` becomes its old bytes followed by the
bytes of old row `cy`, row `cy` is removed, the other rows are unchanged and in order, there
is one row less, and the cursor is at `(cy - 1, old size of row cy - 1)`. -/
theorem delChar_joins_rows (cmd : Config → Option Config) (E : Config) (prev row : Row)
    (h1 : 1 ≤ E.cy) (hprev : E.rowAt (E.cy - 1) = some prev) (hrow : E.rowAt E.cy = some row)
    (hcx : E.cx = 0) :
    (∃ E1 r1, delChar E = some E1 ∧
      E1.row = E.row.take (E.cy - 1).toNat ++ r1 :: E.row.drop (E.cy.toNat + 1) ∧
      r1.chars = prev.chars ++ row.chars ∧
      E1.numrows = E.numrows - 1 ∧ E1.cy = E.cy - 1 ∧ E1.cx = prev.size) ∧
    (E.mode = Mode.INSERT →
      handleKeypress cmd BACKSPACE E = delChar E ∧
      handleKeypress cmd (CtrlKey 104) E = delChar E) := by
  obtain ⟨_, _, hgetp⟩ := rowAt_some hprev
  obtain ⟨_, _, hget⟩ := rowAt_some hrow
  obtain ⟨k, hk⟩ := Int.eq_ofNat_of_zero_le (show 0 ≤ E.cy - 1 by omega)
  have hk1 : E.cy = (k : Int) + 1 := by omega
  have e1 : (E.cy - 1).toNat = k := by omega
  have e2 : E.cy.toNat = k + 1 := by omega
  rw [e1] at hgetp ⊢
  rw [e2] at hget ⊢
  refine ⟨⟨_, _, delChar_join E k prev row hk1 hgetp hget hcx, rfl, rfl, ?_, by simp [hk1],
      rfl⟩, ?_⟩
  · have hlen : (E.row.take k).length = k := length_take_lt hgetp
    obtain ⟨hlt, _⟩ := List.getElem?_eq_some.mp hget
    simp only [Config.numrows, List.length_append, List.length_cons, List.length_drop, hlen]
    omega
  · intro hm
    constructor <;>
      simp [handleKeypress, hm, CtrlKey, ARROW_UP, ARROW_DOWN, ARROW_LEFT, ARROW_RIGHT, PAGE_UP,
        PAGE_DOWN, HOME_KEY, END_KEY, DEL_KEY, BACKSPACE]

/-- C10 on the buffer `ab`, `c` with the cursor at the start of the second row. -/
theorem delChar_joins_rows_witness :
    ∃ E1 r1, delChar { bufferOf [[97, 98], [99]] with mode := Mode.INSERT, cy := 1 } = some E1 ∧
      E1.row = [] ++ r1 :: [] ∧ r1.chars = [97, 98] ++ [99] ∧ E1.cy = 1 - 1 ∧ E1.cx = 2 := by
  obtain ⟨E1, r1, h1, h2, h3, _, h4, h5⟩ :=
    (delChar_joins_rows some { bufferOf [[97, 98], [99]] with mode := Mode.INSERT, cy := 1 }
      (newRow [97, 98]) (newRow [99]) (by decide) (by decide) (by decide) (by decide)).1
  exact ⟨E1, r1, h1, h2, h3, h4, h5⟩

/-! ### The clamp of `moveCursor` and the Delete key away from the failing inputs -/

theorem rowAt_exists (E : Config) (i : Int) (h0 : 0 ≤ i) (h1 : i < E.numrows) :
    ∃ r, E.rowAt i = some r := by
  obtain ⟨k, hk⟩ := Int.eq_ofNat_of_zero_le h0
  have hkl : k < E.row.length := by
    unfold Config.numrows at h1
    omega
  exact ⟨E.row[k], by rw [hk, rowAt_ofNat]; exact List.getElem?_eq_getElem hkl⟩

theorem Row.size_nonneg (r : Row) : 0 ≤ r.size := by
  unfold Row.size
  omega

theorem moveCursorSwitch_ok (c : Int) (E : Config)
    (hcy0 : 0 ≤ E.cy) (hcy1 : E.cy ≤ E.numrows) (hcx : 0 ≤ E.cx) :
    ∃ E0, moveCursorSwitch c E = some E0 ∧ E0.row = E.row ∧ E0.mode = E.mode ∧
      0 ≤ E0.cy ∧ E0.cy ≤ E.numrows ∧ 0 ≤ E0.cx := by
  unfold moveCursorSwitch
  by_cases hL : c = ARROW_LEFT ∨ c = 104
  · rw [if_pos hL]
    by_cases h1 : E.cx > 0
    · rw [if_pos h1]
      exact ⟨_, rfl, rfl, rfl, hcy0, hcy1, by show 0 ≤ E.cx - 1; omega⟩
    · rw [if_neg h1]
      by_cases h2 : E.cy > 0
      · rw [if_pos h2]
        obtain ⟨r, hr⟩ := rowAt_exists E (E.cy - 1) (by omega) (by omega)
        simp only [hr, Option.bind_eq_bind, Option.some_bind]
        exact ⟨_, rfl, rfl, rfl, by show 0 ≤ E.cy - 1; omega, by show E.cy - 1 ≤ _; omega,
          r.size_nonneg⟩
      · rw [if_neg h2]
        exact ⟨E, rfl, rfl, rfl, hcy0, hcy1, hcx⟩
  · rw [if_neg hL]
    by_cases hR : c = ARROW_RIGHT ∨ c = 108
    · rw [if_pos hR]
      by_cases h1 : E.cy ≥ E.numrows
      · rw [if_pos h1]
        exact ⟨E, rfl, rfl, rfl, hcy0, hcy1, hcx⟩
      · rw [if_neg h1]
        obtain ⟨r, hr⟩ := rowAt_exists E E.cy hcy0 (by omega)
        simp only [hr, Option.bind_eq_bind, Option.some_bind]
        by_cases h2 : E.cx ≤ r.size - 1
        · rw [if_pos h2]
          exact ⟨_, rfl, rfl, rfl, hcy0, hcy1, by show 0 ≤ E.cx + 1; omega⟩
        · rw [if_neg h2]
          by_cases h3 : E.cx = r.size ∧ E.mode = Mode.INSERT ∧ E.cy ≠ E.numrows - 1
          · rw [if_pos h3]
            exact ⟨_, rfl, rfl, rfl, by show 0 ≤ E.cy + 1; omega, by show E.cy + 1 ≤ _; omega,
              le_refl _⟩
          · rw [if_neg h3]
            exact ⟨E, rfl, rfl, rfl, hcy0, hcy1, hcx⟩
    · rw [if_neg hR]
      by_cases hU : c = ARROW_UP ∨ c = 107
      · rw [if_pos hU]
        by_cases h1 : E.cy ≠ 0
        · rw [if_pos h1]
          exact ⟨_, rfl, rfl, rfl, by show 0 ≤ E.cy - 1; omega, by show E.cy - 1 ≤ _; omega, hcx⟩
        · rw [if_neg h1]
          exact ⟨E, rfl, rfl, rfl, hcy0, hcy1, hcx⟩
      · rw [if_neg hU]
        by_cases hD : c = ARROW_DOWN ∨ c = 106
        · rw [if_pos hD]
          by_cases h1 : E.cy < E.numrows - 1
          · rw [if_pos h1]
            exact ⟨_, rfl, rfl, rfl, by show 0 ≤ E.cy + 1; omega, by show E.cy + 1 ≤ _; omega,
              hcx⟩
          · rw [if_neg h1]
            exact ⟨E, rfl, rfl, rfl, hcy0, hcy1, hcx⟩
        · rw [if_neg hD]
          exact ⟨E, rfl, rfl, rfl, hcy0, hcy1, hcx⟩

/-- From a cursor with `0 ≤ cy ≤ numrows` and `0 ≤ cx`, `moveCursor` returns a state; in
INSERT mode `0 ≤ cx ≤ len` there, in NORMAL mode `0 ≤ cx ≤ len - 1` when the row under the
cursor is not empty, and `cx = -1` when it is empty or the cursor is past the last row. -/
theorem moveCursor_clamp (c : Int) (E : Config)
    (hcy0 : 0 ≤ E.cy) (hcy1 : E.cy ≤ E.numrows) (hcx : 0 ≤ E.cx) :
    ∃ E1 len, moveCursor c E = some E1 ∧ currRowLen E1 = some len ∧ 0 ≤ len ∧
      E1.mode = E.mode ∧ E1.row = E.row ∧
      (E.mode = Mode.INSERT → 0 ≤ E1.cx ∧ E1.cx ≤ len) ∧
      (E.mode = Mode.NORMAL → 0 < len → 0 ≤ E1.cx ∧ E1.cx ≤ len - 1) ∧
      (E.mode = Mode.NORMAL → len = 0 → E1.cx = -1) := by
  obtain ⟨E0, hsw, hrow0, hmode0, h0, h1, hx⟩ := moveCursorSwitch_ok c E hcy0 hcy1 hcx
  have hnum : E0.numrows = E.numrows := by simp [Config.numrows, hrow0]
  obtain ⟨len, hlen, hlen0⟩ : ∃ len, currRowLen E0 = some len ∧ 0 ≤ len := by
    unfold currRowLen
    by_cases hge : E0.cy ≥ E0.numrows
    · exact ⟨0, by rw [if_pos hge], le_refl _⟩
    · obtain ⟨r, hr⟩ := rowAt_exists E0 E0.cy h0 (by omega)
      exact ⟨r.size, by rw [if_neg hge, hr]; rfl, r.size_nonneg⟩
  have hform : moveCursor c E = some
      { E0 with cx :=
          if E0.mode = Mode.NORMAL ∧ (if E0.cx > len then len else E0.cx) = len
          then (if E0.cx > len then len else E0.cx) - 1
          else (if E0.cx > len then len else E0.cx) } := by
    simp only [moveCursor, hsw, hlen, Option.bind_eq_bind, Option.some_bind]
    by_cases hgt : E0.cx > len <;> by_cases hn : E0.mode = Mode.NORMAL <;>
      by_cases he : E0.cx = len <;> simp [hgt, hn, he] <;>
      first | omega | (cases E0; simp_all)
  refine ⟨_, len, hform, hlen, hlen0, hmode0, hrow0, ?_, ?_, ?_⟩
  · intro hm
    have hm0 : ¬ (E0.mode = Mode.NORMAL) := by rw [hmode0, hm]; decide
    dsimp only
    simp only [hm0, false_and, if_false]
    split_ifs <;> omega
  · intro hm hpos
    have hm0 : E0.mode = Mode.NORMAL := by rw [hmode0, hm]
    dsimp only
    simp only [hm0, true_and]
    split_ifs <;> omega
  · intro hm hz
    have hm0 : E0.mode = Mode.NORMAL := by rw [hmode0, hm]
    dsimp only
    simp only [hm0, true_and]
    split_ifs <;> omega

theorem delChar_before_cursor (E : Config) (k : Nat) (row : Row)
    (hk : E.cy = k) (hget : E.row[k]? = some row) (h0 : 0 < E.cx) (h1 : E.cx ≤ row.size) :
    delChar E = some
      { E with row := E.row.take k
                 ++ updateRow { row with chars := row.chars.take (E.cx - 1).toNat
                                                   ++ row.chars.drop ((E.cx - 1).toNat + 1) }
                 :: E.row.drop (k + 1),
               mod := true, cx := E.cx - 1 } := by
  obtain ⟨hlt, _⟩ := List.getElem?_eq_some.mp hget
  have hne : ¬ ((k : Int) = E.row.length) := by omega
  have hnz : ¬ (E.cx = 0) := by omega
  have hpos : E.cx > 0 := h0
  simp only [delChar, Config.numrows, hk, hne, if_false, hnz, false_and, rowAt_ofNat, hget,
    Option.bind_eq_bind, Option.some_bind, hpos, if_true]
  rw [rowDelChar_in_row E k row (E.cx - 1) hget (by omega) (by omega)]
  simp [hk]

theorem moveCursor_right_wrap (E : Config) (row : Row)
    (hrow : E.rowAt E.cy = some row) (hm : E.mode = Mode.INSERT) (hcx : E.cx = row.size)
    (hlast : E.cy < E.numrows - 1) :
    moveCursor ARROW_RIGHT E = some { E with cy := E.cy + 1, cx := 0 } := by
  obtain ⟨h0, hlt, hget⟩ := rowAt_some hrow
  obtain ⟨next, hnext⟩ := rowAt_exists E (E.cy + 1) (by omega) (by omega)
  have hsw : moveCursorSwitch ARROW_RIGHT E = some { E with cy := E.cy + 1, cx := 0 } := by
    have h1 : ¬ (E.cy ≥ E.numrows) := by omega
    have h2 : ¬ (E.cx ≤ row.size - 1) := by omega
    have h3 : E.cx = row.size ∧ E.mode = Mode.INSERT ∧ E.cy ≠ E.numrows - 1 :=
      ⟨hcx, hm, by omega⟩
    have hl : ¬ (ARROW_RIGHT = ARROW_LEFT ∨ ARROW_RIGHT = 104) := by decide
    have hr : ARROW_RIGHT = ARROW_RIGHT ∨ ARROW_RIGHT = 108 := Or.inl rfl
    unfold moveCursorSwitch
    rw [if_neg hl, if_pos hr, if_neg h1]
    simp only [hrow, Option.bind_eq_bind, Option.some_bind]
    rw [if_neg h2, if_pos h3]
  have hlen : currRowLen { E with cy := E.cy + 1, cx := 0 } = some next.size := by
    have h1 : ¬ (E.cy + 1 ≥ E.numrows) := by omega
    show (if E.cy + 1 ≥ E.numrows then some 0 else (E.rowAt (E.cy + 1)).map Row.size) = _
    rw [if_neg h1, hnext]
    rfl
  have hn := next.size_nonneg
  have hgt : ¬ ((0 : Int) > next.size) := by omega
  simp only [moveCursor, hsw, hlen, Option.bind_eq_bind, Option.some_bind]
  simp [hgt, hm]

/-- In INSERT mode, when the guard of the Delete key reads an existing row and passes, the
key removes the byte under the cursor, or at the end of a row other than the last joins the
next row onto it; the cursor does not move. -/
theorem delete_key_when_guard_passes (cmd : Config → Option Config) (E : Config)
    (row g : Row) (hm : E.mode = Mode.INSERT) (hrow : E.rowAt E.cy = some row)
    (hg : E.rowAt E.cx = some g) (hguard : E.cx < g.size ∨ E.cy < E.numrows - 1)
    (h0 : 0 ≤ E.cx) :
    (E.cx < row.size → handleKeypress cmd DEL_KEY E = some
      { E with row := E.row.take E.cy.toNat
                 ++ updateRow { row with chars := row.chars.take E.cx.toNat
                                                   ++ row.chars.drop (E.cx.toNat + 1) }
                 :: E.row.drop (E.cy.toNat + 1),
               mod := true }) ∧
    (E.cx = row.size → E.cy < E.numrows - 1 →
      ∃ next, E.rowAt (E.cy + 1) = some next ∧ handleKeypress cmd DEL_KEY E = some
        { E with row := E.row.take E.cy.toNat
                   ++ updateRow { row with chars := row.chars ++ next.chars }
                   :: E.row.drop (E.cy.toNat + 2),
                 mod := true }) := by
  obtain ⟨hc0, hlt, hget⟩ := rowAt_some hrow
  obtain ⟨k, hk⟩ := Int.eq_ofNat_of_zero_le hc0
  have hkk : E.cy.toNat = k := by omega
  rw [hkk] at hget ⊢
  have hkey : handleKeypress cmd DEL_KEY E = (moveCursor ARROW_RIGHT E).bind delChar := by
    simp [handleKeypress, DEL_KEY, CtrlKey, ARROW_UP, ARROW_DOWN, ARROW_LEFT, ARROW_RIGHT,
      PAGE_UP, PAGE_DOWN, HOME_KEY, END_KEY, hg, hguard, hm]
  constructor
  · intro hlt1
    rw [hkey, moveCursor_right_in_row E row hrow hm (by omega), Option.some_bind,
      delChar_before_cursor { E with cx := E.cx + 1 } k row hk hget
        (by show 0 < E.cx + 1; omega) (by show E.cx + 1 ≤ row.size; omega)]
    simp
  · intro heq hlast
    obtain ⟨next, hnext⟩ := rowAt_exists E (E.cy + 1) (by omega) (by omega)
    obtain ⟨_, _, hgetn⟩ := rowAt_some hnext
    have e1 : (E.cy + 1).toNat = k + 1 := by omega
    rw [e1] at hgetn
    refine ⟨next, hnext, ?_⟩
    rw [hkey, moveCursor_right_wrap E row hrow hm heq hlast, Option.some_bind,
      delChar_join { E with cy := E.cy + 1, cx := 0 } k row next (by show E.cy + 1 = _; omega)
        hget hgetn rfl]
    simp [heq, hk]

/-! ### Row operations: `rowDelChar`, `insertRow`, `rowInsertChar` -/

theorem rowDelChar_outside (E : Config) (k : Int) (row : Row) (idx : Int)
    (hrow : E.rowAt k = some row) (h : idx < 0 ∨ idx > row.size) :
    rowDelChar k idx E = some E := by
  simp [rowDelChar, hrow, h]

/-- C11, the code at `idx = size`. On the row `ab` the call `rowDelChar(row, 2)` is not a
no-op: the guard is `idx > row->size`, so `idx = size` passes it, no byte moves, and `size--`
drops the last byte: the row becomes `a`, its render `a`, and the buffer is marked modified.
On the buffer of one empty row `rowDelChar(row, 0)` runs `size--` to `-1`. For `idx = 0` on the
row `ab` the byte `a` is removed, and for `idx = 3` and `idx = -1` nothing changes. -/
theorem rowDelChar_at_size_drops_last :
    ((bufferOf [[97, 98]]).rowAt 0).map (fun r => (r.chars, r.size)) = some ([97, 98], 2) ∧
    (rowDelChar 0 2 { bufferOf [[97, 98]] with mod := false }).map
        (fun E => (E.row.map (fun r => (r.chars, r.render, r.size)), E.mod))
      = some ([([97], [97], 1)], true) ∧
    rowDelChar 0 0 (bufferOf [[]]) = none ∧
    (rowDelChar 0 0 (bufferOf [[97, 98]])).map (fun E => E.row.map Row.chars)
      = some [[98]] ∧
    rowDelChar 0 3 (bufferOf [[97, 98]]) = some (bufferOf [[97, 98]]) ∧
    rowDelChar 0 (-1) (bufferOf [[97, 98]]) = some (bufferOf [[97, 98]]) := by
  decide

theorem newRow_render (s : List Nat) : (newRow s).render = specExpand s :=
  updateRow_render _

theorem newRow_rsize (s : List Nat) : (newRow s).rsize = ((specExpand s).length : Int) :=
  updateRow_rsize _

/-- C16. For `0 ≤ idx ≤ numrows`, `insertRow(idx, text)` gives the rows before `idx`, then a
new row whose `chars` are `text` and whose `render` is the tab expansion of `text`, then the
rows from `idx` on; there is one row more and the modified flag is set. For `idx < 0` or
`idx > numrows` the state is returned as it was. -/
theorem insertRow_inserts (idx : Int) (s : List Nat) (E : Config) :
    (0 ≤ idx → idx ≤ E.numrows →
      ∃ r, insertRow idx s E
          = { E with row := E.row.take idx.toNat ++ r :: E.row.drop idx.toNat, mod := true } ∧
        r.chars = s ∧ r.render = specExpand s ∧ r.rsize = ((specExpand s).length : Int) ∧
        (insertRow idx s E).numrows = E.numrows + 1 ∧ (insertRow idx s E).mod = true) ∧
    (idx < 0 ∨ idx > E.numrows → insertRow idx s E = E) := by
  constructor
  · intro h0 h1
    have hin : ¬ (idx < 0 ∨ idx > E.numrows) := by omega
    have hlen : idx.toNat ≤ E.row.length := by
      unfold Config.numrows at h1
      omega
    refine ⟨newRow s, by simp [insertRow, hin], rfl, newRow_render s, newRow_rsize s, ?_, ?_⟩
    · rw [insertRow, if_neg hin]
      simp only [Config.numrows, List.length_append, List.length_cons, List.length_take,
        List.length_drop, Nat.min_eq_left hlen]
      omega
    · simp [insertRow, hin]
  · intro h
    simp [insertRow, h]

/-- C16 on the buffer `ab`, `c`: `insertRow(1, tab)` puts a row between them whose render is
four spaces. -/
theorem insertRow_inserts_witness :
    ∃ r, insertRow 1 [9] (bufferOf [[97, 98], [99]])
        = { bufferOf [[97, 98], [99]] with
              row := (bufferOf [[97, 98], [99]]).row.take 1 ++ r
                       :: (bufferOf [[97, 98], [99]]).row.drop 1,
              mod := true } ∧
      r.chars = [9] ∧ r.render = [32, 32, 32, 32] ∧
      insertRow 5 [9] (bufferOf [[97, 98], [99]]) = bufferOf [[97, 98], [99]] := by
  obtain ⟨r, h1, h2, h3, _⟩ :=
    (insertRow_inserts 1 [9] (bufferOf [[97, 98], [99]])).1 (by decide) (by decide)
  exact ⟨r, h1, h2, h3.trans (by decide),
    (insertRow_inserts 5 [9] (bufferOf [[97, 98], [99]])).2 (by decide)⟩

theorem rowInsertChar_at (E : Config) (k : Int) (row : Row) (idx : Int) (c : Nat)
    (hrow : E.rowAt k = some row) (i : Nat)
    (hi : (if idx < 0 ∨ idx > row.size then row.size else idx) = (i : Int)) :
    rowInsertChar k idx c E = some
      { E with row := E.row.take k.toNat
                 ++ updateRow { row with chars := row.chars.take i ++ c :: row.chars.drop i }
                 :: E.row.drop (k.toNat + 1),
               mod := true } := by
  obtain ⟨h0, hlt, hget⟩ := rowAt_some hrow
  simp only [rowInsertChar, hrow, Option.bind_eq_bind, Option.some_bind, hi, Int.toNat_ofNat,
    list_set_at hget]

/-- C17. On an existing row, `rowInsertChar(row, idx, ch)` puts `ch` at offset `idx` when
`0 ≤ idx ≤ size` and appends it when `idx < 0` or `idx > size`; in every case `size` grows by
one, the old bytes keep their order around the new one, `render` is the tab expansion of the
new `chars`, and no other row changes. -/
theorem rowInsertChar_inserts (E : Config) (k : Int) (row : Row) (idx : Int) (c : Nat)
    (hrow : E.rowAt k = some row) :
    ∃ E1 r1, rowInsertChar k idx c E = some E1 ∧
      E1.row = E.row.take k.toNat ++ r1 :: E.row.drop (k.toNat + 1) ∧
      (0 ≤ idx → idx ≤ row.size →
        r1.chars = row.chars.take idx.toNat ++ c :: row.chars.drop idx.toNat) ∧
      (idx < 0 ∨ idx > row.size → r1.chars = row.chars ++ [c]) ∧
      r1.size = row.size + 1 ∧
      (∃ j, j ≤ row.chars.length ∧ r1.chars = row.chars.take j ++ c :: row.chars.drop j) ∧
      r1.render = specExpand r1.chars ∧ r1.rsize = ((specExpand r1.chars).length : Int) := by
  obtain ⟨i, hi, hle⟩ : ∃ i : Nat,
      (if idx < 0 ∨ idx > row.size then row.size else idx) = (i : Int) ∧
      i ≤ row.chars.length := by
    by_cases hout : idx < 0 ∨ idx > row.size
    · exact ⟨row.chars.length, by rw [if_pos hout]; rfl, le_refl _⟩
    · exact ⟨idx.toNat, by rw [if_neg hout]; omega, by unfold Row.size at hout; omega⟩
  refine ⟨_, _, rowInsertChar_at E k row idx c hrow i hi, rfl, ?_, ?_, ?_, ⟨i, hle, rfl⟩,
    updateRow_render _, updateRow_rsize _⟩
  · intro h1 h2
    have hin : ¬ (idx < 0 ∨ idx > row.size) := by omega
    rw [if_neg hin] at hi
    have e : idx.toNat = i := by omega
    rw [e]
    rfl
  · intro hout
    rw [if_pos hout] at hi
    have e : i = row.chars.length := by
      unfold Row.size at hi
      omega
    rw [updateRow_chars, e]
    simp
  · rw [updateRow_size]
    simp only [Row.size, List.length_append, List.length_cons, List.length_take,
      List.length_drop, Nat.min_eq_left hle]
    omega

/-- C17 on the row `ab`: the byte `c` at offset 1 gives `acb`, at offset 7 gives `abc`. -/
theorem rowInsertChar_inserts_witness :
    (∃ E1 r1, rowInsertChar 0 1 99 (bufferOf [[97, 98]]) = some E1 ∧ E1.row = [] ++ r1 :: [] ∧
      r1.chars = [97, 99, 98] ∧ r1.size = 2 + 1) ∧
    (∃ E1 r1, rowInsertChar 0 7 99 (bufferOf [[97, 98]]) = some E1 ∧ E1.row = [] ++ r1 :: [] ∧
      r1.chars = [97, 98, 99]) := by
  obtain ⟨E1, r1, h1, h2, h3, _, h5, _⟩ :=
    rowInsertChar_inserts (bufferOf [[97, 98]]) 0 (newRow [97, 98]) 1 99 (by decide)
  obtain ⟨E2, r2, g1, g2, _, g4, _⟩ :=
    rowInsertChar_inserts (bufferOf [[97, 98]]) 0 (newRow [97, 98]) 7 99 (by decide)
  exact ⟨⟨E1, r1, h1, h2, h3 (by decide) (by decide), h5⟩,
    ⟨E2, r2, g1, g2, g4 (by decide)⟩⟩

/-! ### Moving right -/

theorem moveCursor_l (E : Config) : moveCursor 108 E = moveCursor ARROW_RIGHT E := by
  have h : moveCursorSwitch 108 E = moveCursorSwitch ARROW_RIGHT E := by
    simp [moveCursorSwitch, ARROW_LEFT, ARROW_RIGHT]
  simp only [moveCursor, h]

theorem moveCursor_cy_of_switch (c : Int) (E E0 E1 : Config)
    (hsw : moveCursorSwitch c E = some E0) (h : moveCursor c E = some E1) :
    E1.cy = E0.cy := by
  simp only [moveCursor, hsw, Option.bind_eq_bind, Option.some_bind] at h
  cases hlen : currRowLen E0 with
  | none => simp [hlen] at h
  | some len =>
    simp only [hlen, Option.some_bind, Option.some.injEq] at h
    rw [← h]
    split_ifs <;> rfl

theorem moveCursorSwitch_right_normal (E E0 : Config) (hm : E.mode = Mode.NORMAL)
    (hsw : moveCursorSwitch ARROW_RIGHT E = some E0) : E0.cy = E.cy := by
  have hl : ¬ (ARROW_RIGHT = ARROW_LEFT ∨ ARROW_RIGHT = 104) := by decide
  have hr : ARROW_RIGHT = ARROW_RIGHT ∨ ARROW_RIGHT = 108 := Or.inl rfl
  unfold moveCursorSwitch at hsw
  rw [if_neg hl, if_pos hr] at hsw
  by_cases h1 : E.cy ≥ E.numrows
  · rw [if_pos h1] at hsw
    rw [← Option.some.inj hsw]
  · rw [if_neg h1] at hsw
    cases hrow : E.rowAt E.cy with
    | none => simp [hrow] at hsw
    | some r =>
      simp only [hrow, Option.bind_eq_bind, Option.some_bind] at hsw
      have h3 : ¬ (E.cx = r.size ∧ E.mode = Mode.INSERT ∧ E.cy ≠ E.numrows - 1) := by
        rw [hm]
        simp
      rw [if_neg h3] at hsw
      by_cases h2 : E.cx ≤ r.size - 1
      · rw [if_pos h2] at hsw
        rw [← Option.some.inj hsw]
      · rw [if_neg h2] at hsw
        rw [← Option.some.inj hsw]

/-- C18. For the right arrow and the key `l` of `moveCursor`: in INSERT mode with the cursor
at the end of row `cy` (`cx = size`) and `cy < numrows - 1`, the cursor moves to
`(cy + 1, 0)`; in NORMAL mode the move returns a state for every `cy ≥ 0`, and whenever it
returns a state `cy` is what it was. -/
theorem moveCursor_right_wraps_in_insert_only (c : Int) (hc : c = ARROW_RIGHT ∨ c = 108)
    (E : Config) :
    (∀ row, E.mode = Mode.INSERT → E.rowAt E.cy = some row → E.cx = row.size →
      E.cy < E.numrows - 1 → moveCursor c E = some { E with cy := E.cy + 1, cx := 0 }) ∧
    (E.mode = Mode.NORMAL → 0 ≤ E.cy → ∃ E1, moveCursor c E = some E1 ∧ E1.cy = E.cy) ∧
    (E.mode = Mode.NORMAL → ∀ E1, moveCursor c E = some E1 → E1.cy = E.cy) := by
  have hcR : moveCursor c E = moveCursor ARROW_RIGHT E := by
    rcases hc with rfl | rfl
    · rfl
    · exact moveCursor_l E
  rw [hcR]
  have hcy : E.mode = Mode.NORMAL → ∀ E1, moveCursor ARROW_RIGHT E = some E1 → E1.cy = E.cy := by
    intro hm E1 h
    cases hsw : moveCursorSwitch ARROW_RIGHT E with
    | none => simp [moveCursor, hsw] at h
    | some E0 =>
      rw [moveCursor_cy_of_switch ARROW_RIGHT E E0 E1 hsw h]
      exact moveCursorSwitch_right_normal E E0 hm hsw
  refine ⟨?_, ?_, hcy⟩
  · intro row hm hrow hcx hlast
    exact moveCursor_right_wrap E row hrow hm hcx hlast
  · intro hm h0
    by_cases hlt : E.cy < E.numrows
    · obtain ⟨r, hr⟩ := rowAt_exists E E.cy h0 hlt
      have hge : ¬ (E.cy ≥ E.numrows) := by omega
      have hl : ¬ (ARROW_RIGHT = ARROW_LEFT ∨ ARROW_RIGHT = 104) := by decide
      have hr1 : ARROW_RIGHT = ARROW_RIGHT ∨ ARROW_RIGHT = 108 := Or.inl rfl
      have h3 : ¬ (E.cx = r.size ∧ E.mode = Mode.INSERT ∧ E.cy ≠ E.numrows - 1) := by
        rw [hm]
        simp
      obtain ⟨E0, hsw, hrow0, hcy0⟩ : ∃ E0, moveCursorSwitch ARROW_RIGHT E = some E0 ∧
          E0.row = E.row ∧ E0.cy = E.cy := by
        unfold moveCursorSwitch
        rw [if_neg hl, if_pos hr1, if_neg hge]
        simp only [hr, Option.bind_eq_bind, Option.some_bind]
        rw [if_neg h3]
        by_cases h2 : E.cx ≤ r.size - 1
        · rw [if_pos h2]
          exact ⟨_, rfl, rfl, rfl⟩
        · rw [if_neg h2]
          exact ⟨_, rfl, rfl, rfl⟩
      have hlen : currRowLen E0 = some r.size := by
        unfold currRowLen Config.numrows Config.rowAt
        rw [hrow0, hcy0]
        unfold Config.numrows at hge
        unfold Config.rowAt at hr
        rw [if_neg hge, hr]
        rfl
      have hsome : ∃ E1, moveCursor ARROW_RIGHT E = some E1 := by
        simp only [moveCursor, hsw, hlen, Option.bind_eq_bind, Option.some_bind]
        exact ⟨_, rfl⟩
      obtain ⟨E1, hE1⟩ := hsome
      exact ⟨E1, hE1, hcy hm E1 hE1⟩
    · have hge : E.cy ≥ E.numrows := by omega
      have hl : ¬ (ARROW_RIGHT = ARROW_LEFT ∨ ARROW_RIGHT = 104) := by decide
      have hr1 : ARROW_RIGHT = ARROW_RIGHT ∨ ARROW_RIGHT = 108 := Or.inl rfl
      have hsw : moveCursorSwitch ARROW_RIGHT E = some E := by
        unfold moveCursorSwitch
        rw [if_neg hl, if_pos hr1, if_pos hge]
      have hlen : currRowLen E = some 0 := by
        unfold currRowLen
        rw [if_pos hge]
      have hsome : ∃ E1, moveCursor ARROW_RIGHT E = some E1 := by
        simp only [moveCursor, hsw, hlen, Option.bind_eq_bind, Option.some_bind]
        exact ⟨_, rfl⟩
      obtain ⟨E1, hE1⟩ := hsome
      exact ⟨E1, hE1, hcy hm E1 hE1⟩

/-- C18 on the buffer `ab`, `c`: at the end of the first row the right arrow goes to the
start of the second row in INSERT mode and stays on the first row in NORMAL mode. -/
theorem moveCursor_right_wraps_in_insert_only_witness :
    moveCursor ARROW_RIGHT { bufferOf [[97, 98], [99]] with mode := Mode.INSERT, cx := 2 }
      = some { bufferOf [[97, 98], [99]] with mode := Mode.INSERT, cy := 0 + 1, cx := 0 } ∧
    (∃ E1, moveCursor 108 { bufferOf [[97, 98], [99]] with cx := 1 } = some E1 ∧ E1.cy = 0) :=
  ⟨(moveCursor_right_wraps_in_insert_only ARROW_RIGHT (Or.inl rfl)
      { bufferOf [[97, 98], [99]] with mode := Mode.INSERT, cx := 2 }).1 (newRow [97, 98])
      rfl rfl rfl (by decide),
   (moveCursor_right_wraps_in_insert_only 108 (Or.inr rfl)
      { bufferOf [[97, 98], [99]] with cx := 1 }).2.1 rfl (by decide)⟩

/-! ### The save format and the round trip -/

theorem foldl_text (rows : List Row) (s : List Nat) :
    rows.foldl (fun s r => s ++ r.chars ++ [10]) s = s ++ specText rows := by
  induction rows generalizing s with
  | nil => simp [specText]
  | cons r rs ih =>
    rw [List.foldl_cons, ih]
    simp [specText]

theorem foldl_textLen (rows : List Row) (n : Int) :
    rows.foldl (fun n r => n + (r.size + 1)) n = n + specTextLen rows := by
  induction rows generalizing n with
  | nil => simp [specTextLen]
  | cons r rs ih =>
    simp only [List.foldl_cons, ih, specTextLen]
    omega

theorem specTextLen_eq_length (rows : List Row) :
    specTextLen rows = ((specText rows).length : Int) := by
  induction rows with
  | nil => rfl
  | cons r rs ih =>
    simp only [specTextLen, specText, ih, Row.size, List.length_append, List.length_singleton]
    omega

theorem rowsToString_eq (E : Config) :
    rowsToString E = (specText E.row, ((specText E.row).length : Int)) := by
  simp only [rowsToString]
  rw [foldl_text, foldl_textLen, specTextLen_eq_length]
  simp

/-- C12. `rowsToString` returns the rows' `chars`, each followed by one newline byte, in row
order, and reports as length the sum over the rows of `size + 1`, which is the number of
bytes returned; the empty buffer gives the empty string and length 0; the buffer of the one
row `hello` gives the six bytes `hello` and newline. -/
theorem rowsToString_concat (E : Config) :
    (rowsToString E).1 = specText E.row ∧
    (rowsToString E).2 = specTextLen E.row ∧
    (rowsToString E).2 = ((rowsToString E).1.length : Int) ∧
    (E.row = [] → rowsToString E = ([], 0)) ∧
    rowsToString (bufferOf [[104, 101, 108, 108, 111]])
      = ([104, 101, 108, 108, 111, 10], 6) := by
  refine ⟨?_, ?_, ?_, ?_, by decide⟩
  · rw [rowsToString_eq]
  · rw [rowsToString_eq, specTextLen_eq_length]
  · rw [rowsToString_eq]
  · intro h
    rw [rowsToString_eq, h]
    rfl

/-- C12 on the empty buffer. -/
theorem rowsToString_concat_witness : rowsToString (init 24 80) = ([], 0) :=
  (rowsToString_concat (init 24 80)).2.2.2.1 rfl

theorem dropWhile_eol_self (l : List Nat) (h10 : 10 ∉ l) (h13 : 13 ∉ l) :
    l.dropWhile (fun b => b == 10 || b == 13) = l := by
  cases l with
  | nil => rfl
  | cons x xs =>
    have hx10 : x ≠ 10 := fun e => h10 (by simp [e])
    have hx13 : x ≠ 13 := fun e => h13 (by simp [e])
    have hp : (x == 10 || x == 13) = false := by simp [hx10, hx13]
    rw [List.dropWhile_cons_of_neg (by simp [hp])]

theorem stripEol_line (cur : List Nat) (h10 : 10 ∉ cur) (h13 : 13 ∉ cur) :
    stripEol (cur ++ [10]) = cur := by
  have h := dropWhile_eol_self cur.reverse (by simpa using h10) (by simpa using h13)
  simp [stripEol, List.dropWhile, h]

theorem getLast?_tail_of_ne {b : Nat} {bs : List Nat}
    (h : (b :: bs).getLast? = some 10) (hb : b ≠ 10) : bs ≠ [] ∧ bs.getLast? = some 10 := by
  cases bs with
  | nil =>
    simp at h
    exact absurd h hb
  | cons c cs =>
    rw [List.getLast?_cons_cons] at h
    exact ⟨by simp, h⟩

theorem getLast?_tail_of_cons {b c : Nat} {cs : List Nat}
    (h : (b :: c :: cs).getLast? = some 10) : (c :: cs).getLast? = some 10 := by
  rw [List.getLast?_cons_cons] at h
  exact h

theorem getlines_text (bs cur : List Nat) (h10 : 10 ∉ cur) (h13 : 13 ∉ cur) (hbs : 13 ∉ bs)
    (hend : cur ++ bs = [] ∨ (bs ≠ [] ∧ bs.getLast? = some 10)) :
    specText ((getlines bs cur).map (fun l => newRow (stripEol l))) = cur ++ bs ∧
    (getlines bs cur).map (fun l => stripEol l ++ [10]) = getlines bs cur := by
  induction bs generalizing cur with
  | nil =>
    rcases hend with h | ⟨h, _⟩
    · have hc : cur = [] := by simpa using h
      subst hc
      simp [getlines, specText]
    · exact absurd rfl h
  | cons b bs ih =>
    have hb13 : 13 ∉ bs := fun e => hbs (by simp [e])
    have hlast : (b :: bs).getLast? = some 10 := by
      rcases hend with h | ⟨_, h⟩
      · simp at h
      · exact h
    by_cases hb : b = 10
    · subst hb
      have hend1 : ([] : List Nat) ++ bs = [] ∨ (bs ≠ [] ∧ bs.getLast? = some 10) := by
        cases bs with
        | nil => exact Or.inl rfl
        | cons c cs => exact Or.inr ⟨by simp, getLast?_tail_of_cons hlast⟩
      obtain ⟨i1, i2⟩ := ih [] (by simp) (by simp) hb13 hend1
      simp only [getlines, if_true, List.map_cons, specText, newRow_chars,
        stripEol_line cur h10 h13, i1, i2]
      simp
    · have hb13' : b ≠ 13 := fun e => hbs (by simp [e])
      obtain ⟨i1, i2⟩ := ih (cur ++ [b])
        (by simp [h10, Ne.symm hb]) (by simp [h13, Ne.symm hb13']) hb13
        (Or.inr (getLast?_tail_of_ne hlast hb))
      simp only [getlines, hb, if_false, i1, i2]
      simp

theorem insertRow_at_end (s : List Nat) (E : Config) :
    insertRow E.numrows s E = { E with row := E.row ++ [newRow s], mod := true } := by
  have hin : ¬ (E.numrows < 0 ∨ E.numrows > E.numrows) := by
    unfold Config.numrows
    omega
  rw [insertRow, if_neg hin]
  simp [Config.numrows]

theorem foldl_insertRow_row (f : List Nat → List Nat) (lines : List (List Nat)) (E : Config) :
    (lines.foldl (fun E line => insertRow E.numrows (f line) E) E).row
      = E.row ++ lines.map (fun l => newRow (f l)) := by
  induction lines generalizing E with
  | nil => simp
  | cons l ls ih =>
    rw [List.foldl_cons, ih, insertRow_at_end]
    simp

theorem fileOpen_row (w : World) (filename content : List Nat) (E : Config)
    (hfile : w.fopen filename = some content) :
    (fileOpen w filename E).1.row
      = E.row ++ (getlines content []).map (fun l => newRow (stripEol l)) := by
  simp only [fileOpen, hfile]
  exact foldl_insertRow_row stripEol (getlines content []) { E with filename := some filename }

/-- C13. When every line of the content ends with a newline byte and no carriage return
occurs in it, `fileOpen` on an empty buffer makes one row per line, each row holding its line
without the newline, and `rowsToString` of that buffer returns the content byte for byte,
with its length. -/
theorem fileOpen_rowsToString_round_trip (w : World) (filename content : List Nat)
    (E : Config) (hempty : E.row = []) (hfile : w.fopen filename = some content)
    (hnl : content = [] ∨ content.getLast? = some 10) (hcr : 13 ∉ content) :
    rowsToString (fileOpen w filename E).1 = (content, (content.length : Int)) ∧
    (fileOpen w filename E).1.row.map (fun r => r.chars ++ [10]) = getlines content [] ∧
    (fileOpen w filename E).2 = [Effect.fopened filename] := by
  have hend : ([] : List Nat) ++ content = [] ∨ (content ≠ [] ∧ content.getLast? = some 10) := by
    rcases hnl with h | h
    · exact Or.inl (by simp [h])
    · refine Or.inr ⟨?_, h⟩
      intro e
      simp [e] at h
  obtain ⟨h1, h2⟩ := getlines_text content [] (by simp) (by simp) hcr hend
  have hrow := fileOpen_row w filename content E hfile
  rw [hempty, List.nil_append] at hrow
  refine ⟨?_, ?_, ?_⟩
  · rw [rowsToString_eq, hrow, h1]
    simp
  · rw [hrow, List.map_map]
    exact h2
  · simp [fileOpen, hfile]

/-- C13 on a file of two lines, `ab` and a line with a tab. -/
theorem fileOpen_rowsToString_round_trip_witness :
    rowsToString (fileOpen
        { fopen := fun _ => some [97, 98, 10, 9, 99, 10], openOk := true, truncOk := true,
          writeOk := true, renameOk := true, strerror := [] }
        [102] (init 24 80)).1
      = ([97, 98, 10, 9, 99, 10], 6) :=
  (fileOpen_rowsToString_round_trip
    { fopen := fun _ => some [97, 98, 10, 9, 99, 10], openOk := true, truncOk := true,
      writeOk := true, renameOk := true, strerror := [] }
    [102] [97, 98, 10, 9, 99, 10] (init 24 80) rfl rfl (Or.inr rfl) (by decide)).1

/-! ### Input decoder -/

theorem readKeypress_table (signedChar : Bool) (p : List Nat × Int) (hp : p ∈ specEscapes)
    (rest : List (Option Nat)) :
    readKeypress signedChar (some 27 :: (p.1.map some ++ rest)) = some (p.2, rest) := by
  simp only [specEscapes, List.mem_cons, List.mem_singleton, List.not_mem_nil, or_false] at hp
  rcases hp with h | h | h | h | h | h | h | h | h | h | h | h | h | h | h <;>
    subst h <;> simp [readKeypress, readEscape, readByte]

theorem readEscape_two (a b : Nat) (r : List (Option Nat)) (ha : a < 256) (hb : b < 256)
    (hd : ¬ (a = 91 ∧ 48 ≤ b ∧ b ≤ 57))
    (h1 : a = 91 → b ≠ 65 ∧ b ≠ 66 ∧ b ≠ 67 ∧ b ≠ 68 ∧ b ≠ 72 ∧ b ≠ 70)
    (h2 : a = 79 → b ≠ 72 ∧ b ≠ 70) :
    readEscape (some a :: some b :: r) = (27, r) := by
  have ma : a % 256 = a := Nat.mod_eq_of_lt ha
  have mb : b % 256 = b := Nat.mod_eq_of_lt hb
  by_cases ha : a = 91
  · obtain ⟨e1, e2, e3, e4, e5, e6⟩ := h1 ha
    have hd1 : ¬ (48 ≤ b ∧ b ≤ 57) := fun e => hd ⟨ha, e⟩
    simp only [readEscape, readByte, ma, mb, ha, if_true, hd1, if_false, e1, e2, e3, e4, e5, e6,
      ESC_KEY]
  · by_cases hb : a = 79
    · obtain ⟨e1, e2⟩ := h2 hb
      have hn : ¬ ((79 : Nat) = 91) := by decide
      rw [hb] at ma
      simp only [readEscape, readByte, ma, mb, hb, hn, if_true, if_false, e1, e2, ESC_KEY]
    · simp only [readEscape, readByte, ma, mb, ha, hb, if_false, ESC_KEY]

theorem readEscape_digit_timeout (b : Nat) (r : List (Option Nat)) (hb : b < 256)
    (hd : 48 ≤ b ∧ b ≤ 57) (hr : (readByte r).1 = none) :
    (readEscape (some 91 :: some b :: r)).1 = 27 := by
  have mb : b % 256 = b := Nat.mod_eq_of_lt hb
  have m91 : 91 % 256 = 91 := by decide
  rcases r with _ | ⟨_ | c, t⟩
  · simp only [readEscape, readByte, mb, m91, if_true, hd, and_self, ESC_KEY]
  · simp only [readEscape, readByte, mb, m91, if_true, hd, and_self, ESC_KEY]
  · simp [readByte] at hr

theorem readEscape_digit (b c : Nat) (r : List (Option Nat)) (hb : b < 256) (hc : c < 256)
    (hd : 48 ≤ b ∧ b ≤ 57)
    (h : c = 126 → b ≠ 49 ∧ b ≠ 51 ∧ b ≠ 52 ∧ b ≠ 53 ∧ b ≠ 54 ∧ b ≠ 55 ∧ b ≠ 56) :
    readEscape (some 91 :: some b :: some c :: r) = (27, r) := by
  have mb : b % 256 = b := Nat.mod_eq_of_lt hb
  have mc : c % 256 = c := Nat.mod_eq_of_lt hc
  have m91 : 91 % 256 = 91 := by decide
  by_cases hc : c = 126
  · obtain ⟨e1, e2, e3, e4, e5, e6, e7⟩ := h hc
    rw [hc] at mc
    simp only [readEscape, readByte, mb, mc, m91, if_true, hd, and_self, hc, e1, e2, e3, e4, e5,
      e6, e7, if_false, ESC_KEY]
  · simp only [readEscape, readByte, mb, mc, m91, if_true, hd, and_self, hc, if_false, ESC_KEY]

theorem not_take_two {a b x y : Nat} {r : List (Option Nat)}
    (h : ¬ List.take 2 (some a :: some b :: r) = [some x, some y]) : ¬ (a = x ∧ b = y) := by
  rintro ⟨rfl, rfl⟩
  exact h rfl

theorem not_take_three {a b c x y z : Nat} {r : List (Option Nat)}
    (h : ¬ List.take 3 (some a :: some b :: some c :: r) = [some x, some y, some z]) :
    ¬ (a = x ∧ b = y ∧ c = z) := by
  rintro ⟨rfl, rfl, rfl⟩
  exact h rfl

theorem readKeypress_other_escape (signedChar : Bool) (rest : List (Option Nat))
    (hbytes : ∀ b, some b ∈ rest → b < 256)
    (h : ∀ p ∈ specEscapes, rest.take p.1.length ≠ p.1.map some) :
    (readKeypress signedChar (some 27 :: rest)).map Prod.fst = some 27 := by
  simp only [specEscapes, List.mem_cons, List.mem_singleton, List.not_mem_nil, or_false,
    forall_eq_or_imp, forall_eq] at h
  obtain ⟨g1, g2, g3, g4, g5, g6, g7, g8, g9, g10, g11, g12, g13, g14, g15⟩ := h
  have hkey : (readEscape rest).1 = 27 := by
    cases rest with
    | nil => rfl
    | cons x r1 =>
      cases x with
      | none => rfl
      | some a =>
        have ha : a < 256 := hbytes a (List.mem_cons_self _ _)
        cases r1 with
        | nil => rfl
        | cons y r =>
          cases y with
          | none => rfl
          | some b =>
            have hb : b < 256 :=
              hbytes b (List.mem_cons_of_mem _ (List.mem_cons_self _ _))
            have f1 := not_take_two g1
            have f2 := not_take_two g2
            have f3 := not_take_two g3
            have f4 := not_take_two g4
            have f5 := not_take_two g5
            have f6 := not_take_two g6
            have f9 := not_take_two g9
            have f10 := not_take_two g10
            by_cases hd : a = 91 ∧ 48 ≤ b ∧ b ≤ 57
            · obtain ⟨ha91, hd1⟩ := hd
              subst ha91
              cases r with
              | nil => exact readEscape_digit_timeout b [] hb hd1 rfl
              | cons z t =>
                cases z with
                | none => exact readEscape_digit_timeout b (none :: t) hb hd1 rfl
                | some c =>
                  have hc : c < 256 :=
                    hbytes c (List.mem_cons_of_mem _ (List.mem_cons_of_mem _
                      (List.mem_cons_self _ _)))
                  have f7 := not_take_three g7
                  have f8 := not_take_three g8
                  have f11 := not_take_three g11
                  have f12 := not_take_three g12
                  have f13 := not_take_three g13
                  have f14 := not_take_three g14
                  have f15 := not_take_three g15
                  clear g1 g2 g3 g4 g5 g6 g7 g8 g9 g10 g11 g12 g13 g14 g15 hbytes
                  rw [readEscape_digit b c t hb hc hd1 (by omega)]
            · clear g1 g2 g3 g4 g5 g6 g7 g8 g9 g10 g11 g12 g13 g14 g15 hbytes
              rw [readEscape_two a b r ha hb hd (by omega) (by omega)]
  have m27 : 27 % 256 = 27 := by decide
  simp only [readKeypress, m27, if_true, Option.map_some', hkey]

theorem charToInt_cases (signedChar : Bool) (b : Nat) (hb : b < 256) :
    (b < 128 → charToInt signedChar b = (b : Int)) ∧
    (signedChar = false → charToInt signedChar b = (b : Int)) ∧
    (signedChar = true → 128 ≤ b → charToInt signedChar b = (b : Int) - 256) := by
  have mb : b % 256 = b := Nat.mod_eq_of_lt hb
  refine ⟨?_, ?_, ?_⟩
  · intro h
    have hn : ¬ (signedChar = true ∧ 128 ≤ b) := fun e => absurd e.2 (by omega)
    simp only [charToInt, mb, hn, if_false]
  · intro h
    have hn : ¬ (signedChar = true ∧ 128 ≤ b) := fun e => by
      rw [h] at e
      exact Bool.noConfusion e.1
    simp only [charToInt, mb, hn, if_false]
  · intro h1 h2
    have hp : signedChar = true ∧ 128 ≤ b := ⟨h1, h2⟩
    simp only [charToInt, mb, hp, and_self, if_true]

/-- C15, as the code has it. `readKeypress`, as a function of the bytes that the calls of
`read` deliver: a first byte other than ESC is returned as the `int` that the plain `char`
holding it converts to, which is the byte itself when it is below 128 and wherever plain
`char` is unsigned, and the byte minus 256 for a byte from 128 to 255 where plain `char` is
signed; ESC followed by a recognised sequence (ESC [ A, B, C, D for the arrows up, down,
right, left; ESC [ H, ESC O H, ESC [ 1 ~, ESC [ 7 ~ for Home; ESC [ F, ESC O F, ESC [ 4 ~,
ESC [ 8 ~ for End; ESC [ 3 ~ for Delete; ESC [ 5 ~ and ESC [ 6 ~ for Page-Up and Page-Down)
gives that key and consumes exactly the sequence; ESC followed by anything else gives the raw
ESC, also a lone ESC, a sequence cut short by a timeout, and an unrecognised sequence; calls
of `read` that time out before the first byte are repeated. -/
theorem readKeypress_decodes (signedChar : Bool) :
    (∀ (b : Nat) (rest : List (Option Nat)), b < 256 → b ≠ 27 →
      readKeypress signedChar (some b :: rest) = some (charToInt signedChar b, rest) ∧
      (b < 128 → charToInt signedChar b = (b : Int)) ∧
      (signedChar = false → charToInt signedChar b = (b : Int)) ∧
      (signedChar = true → 128 ≤ b → charToInt signedChar b = (b : Int) - 256)) ∧
    (∀ p ∈ specEscapes, ∀ rest : List (Option Nat),
      readKeypress signedChar (some 27 :: (p.1.map some ++ rest)) = some (p.2, rest)) ∧
    (∀ rest : List (Option Nat), (∀ b, some b ∈ rest → b < 256) →
      (∀ p ∈ specEscapes, rest.take p.1.length ≠ p.1.map some) →
      (readKeypress signedChar (some 27 :: rest)).map Prod.fst = some ESC_KEY) ∧
    (∀ rest : List (Option Nat),
      readKeypress signedChar (none :: rest) = readKeypress signedChar rest) ∧
    readKeypress signedChar [some 27] = some (ESC_KEY, []) ∧
    readKeypress signedChar [some 27, none, some 91, some 65]
      = some (ESC_KEY, [some 91, some 65]) ∧
    readKeypress signedChar [some 27, some 91] = some (ESC_KEY, []) ∧
    readKeypress signedChar [some 27, some 91, some 49] = some (ESC_KEY, []) ∧
    readKeypress signedChar [some 27, some 91, some 49, none, some 126]
      = some (ESC_KEY, [some 126]) ∧
    readKeypress signedChar [some 27, some 91, some 90] = some (ESC_KEY, []) ∧
    readKeypress signedChar [some 27, some 91, some 50, some 126] = some (ESC_KEY, []) ∧
    readKeypress signedChar [some 27, some 79, some 65] = some (ESC_KEY, []) := by
  refine ⟨?_, readKeypress_table signedChar, readKeypress_other_escape signedChar,
    fun _ => rfl, rfl, rfl, rfl, rfl, rfl, rfl, rfl, rfl⟩
  intro b rest hb hne
  have mb : b % 256 = b := Nat.mod_eq_of_lt hb
  refine ⟨?_, charToInt_cases signedChar b hb⟩
  simp only [readKeypress, mb, hne, if_false]

/-- C15 on the byte `a`, on the byte 200 where plain `char` is signed, on ESC [ A followed by
the byte `x`, and on ESC followed by `x`. -/
theorem readKeypress_decodes_witness :
    readKeypress true [some 97, some 98] = some (97, [some 98]) ∧
    readKeypress true [some 200] = some (200 - 256, []) ∧
    readKeypress true (some 27 :: ([91, 65].map some ++ [some 120]))
      = some (ARROW_UP, [some 120]) ∧
    (readKeypress true [some 27, some 120]).map Prod.fst = some ESC_KEY :=
  ⟨((readKeypress_decodes true).1 97 [some 98] (by decide) (by decide)).1.trans
      (by rw [((readKeypress_decodes true).1 97 [some 98] (by decide) (by decide)).2.1
        (by decide)]; rfl),
   ((readKeypress_decodes true).1 200 [] (by decide) (by decide)).1.trans
      (by rw [((readKeypress_decodes true).1 200 [] (by decide) (by decide)).2.2.2 rfl
        (by decide)]; rfl),
   (readKeypress_decodes true).2.1 ([91, 65], ARROW_UP) (by decide) [some 120],
   (readKeypress_decodes true).2.2.1 [some 120]
      (by intro b hb; simp only [List.mem_singleton, Option.some.injEq] at hb; omega)
      (by decide)⟩

/-- C15 as the claim words it fails where plain `char` is signed: the first byte 200, which
is not ESC, is returned as -56 and not as the byte itself, while where plain `char` is
unsigned the same byte is returned as 200. -/
theorem readKeypress_high_byte_negative :
    readKeypress true [some 200] = some (-56, []) ∧
    readKeypress true [some 200] ≠ some (200, []) ∧
    readKeypress false [some 200] = some (200, []) :=
  ⟨by decide, by decide, by decide⟩

/-! ### The name of the temporary file -/

theorem memcpy_filename (filename ext : List Nat) :
    memcpy (malloc (filename.length + ext.length + 1)) 0 filename
      = some (filename.map some ++ List.replicate (ext.length + 1) none) := by
  have hfit : 0 + filename.length ≤ (malloc (filename.length + ext.length + 1)).length := by
    simp only [malloc, List.length_replicate]
    omega
  rw [memcpy, if_pos hfit]
  simp only [malloc, List.take_zero, List.nil_append, Nat.zero_add, List.drop_replicate]
  congr 3
  omega

theorem memcpy_ext (filename ext : List Nat) :
    memcpy (filename.map some ++ List.replicate (ext.length + 1) none) filename.length ext
      = some ((filename ++ ext).map some ++ [none]) := by
  have hfit : filename.length + ext.length
      ≤ (filename.map some ++ List.replicate (ext.length + 1) none).length := by
    simp only [List.length_append, List.length_map, List.length_replicate]
    omega
  have htake : List.take filename.length
      (filename.map some ++ List.replicate (ext.length + 1) none) = filename.map some := by
    rw [List.take_append_of_le_length (by simp)]
    exact List.take_of_length_le (by simp)
  have hdrop : List.drop (filename.length + ext.length)
      (filename.map some ++ List.replicate (ext.length + 1) none) = [none] := by
    rw [List.drop_append_eq_append_drop, List.drop_of_length_le (by simp)]
    simp only [List.length_map, List.nil_append, List.drop_replicate]
    have e : ext.length + 1 - (filename.length + ext.length - filename.length) = 1 := by omega
    rw [e]
    rfl
  rw [memcpy, if_pos hfit, htake, hdrop]
  simp

/-- C19, the code for every file name. After the two `memcpy` the allocation of
`filenameLen + tmpExtLen + 1` bytes holds the bytes of the file name, the bytes of the
extension and one byte that was never written; the store `tmpfilename[tmpFilenameLen] = 0`
is at the index that equals the size of the allocation, one past its last byte, so building
the name is undefined and no byte of the allocation holds the terminator. `fileSave` with a
file name set therefore never reaches `open`. For the name `a` and the extension `.ded` the
six bytes allocated are `a.ded` and an unwritten byte. -/
theorem tmpFilename_terminator_outside (filename ext : List Nat) :
    (memcpy (malloc (filename.length + ext.length + 1)) 0 filename).bind
        (fun b => memcpy b filename.length ext)
      = some ((filename ++ ext).map some ++ [none]) ∧
    ((filename ++ ext).map some ++ [none]).length = filename.length + ext.length + 1 ∧
    store ((filename ++ ext).map some ++ [none]) (filename.length + ext.length + 1) 0 = none ∧
    ((filename ++ ext).map some ++ [none])[filename.length + ext.length]? = some none ∧
    tmpFilename filename ext = none ∧
    (∀ (w : World) (keys : List Int) (E : Config),
      fileSave w keys { E with filename := some filename, tmpFileExt := ext } = none) ∧
    (memcpy (malloc 6) 0 [97]).bind (fun b => memcpy b 1 [46, 100, 101, 100])
      = some [some 97, some 46, some 100, some 101, some 100, none] ∧
    cstring [some 97, some 46, some 100, some 101, some 100, none] = none := by
  have hlen : ((filename ++ ext).map some ++ [none]).length
      = filename.length + ext.length + 1 := by
    simp only [List.length_append, List.length_map, List.length_singleton]
  have hstore : store ((filename ++ ext).map some ++ [none])
      (filename.length + ext.length + 1) 0 = none := by
    rw [store, if_neg (by rw [hlen]; omega)]
  have htmp : tmpFilename filename ext = none := by
    simp only [tmpFilename, memcpy_filename, memcpy_ext, Option.bind_eq_bind, Option.some_bind,
      hstore]
  refine ⟨by rw [memcpy_filename, Option.some_bind, memcpy_ext], hlen, hstore, ?_, htmp, ?_,
    by decide, by decide⟩
  · rw [List.getElem?_append_right (by simp)]
    simp
  · intro w keys E
    simp [fileSave, htmp]

/-! ### The commands -/

theorem scroll_fields (E E1 : Config) (h : scroll E = some E1) :
    E1.row = E.row ∧ E1.cx = E.cx ∧ E1.cy = E.cy ∧ E1.mode = E.mode ∧
    E1.filename = E.filename ∧ E1.mod = E.mod ∧ E1.tmpFileExt = E.tmpFileExt ∧
    E1.statusmsg = E.statusmsg := by
  obtain ⟨rx, h1, _⟩ := scroll_some E E1 h
  rw [h1]
  simp only [scrollOffsets]
  split_ifs <;> exact ⟨rfl, rfl, rfl, rfl, rfl, rfl, rfl, rfl⟩

theorem commandPrompt_fields (pre post : List Nat) (keys : List Int) (buf : List Nat)
    (E : Config) (line : Option (List Nat)) (keys1 : List Int) (E1 : Config)
    (h : commandPrompt pre post keys buf E = some (line, keys1, E1)) :
    E1.row = E.row ∧ E1.cx = E.cx ∧ E1.cy = E.cy ∧ E1.mode = E.mode ∧
    E1.filename = E.filename ∧ E1.mod = E.mod ∧ E1.tmpFileExt = E.tmpFileExt ∧
    E1.statusmsg = [] := by
  induction keys generalizing buf E with
  | nil => simp [commandPrompt] at h
  | cons c keys ih =>
    rw [commandPrompt] at h
    cases hs : scroll (setStatusMsg (pre ++ buf ++ post) E) with
    | none =>
      rw [hs] at h
      exact absurd h (by simp)
    | some E2 =>
      obtain ⟨s1, s2, s3, s4, s5, s6, s7, _⟩ := scroll_fields _ _ hs
      have base : E2.row = E.row ∧ E2.cx = E.cx ∧ E2.cy = E.cy ∧ E2.mode = E.mode ∧
          E2.filename = E.filename ∧ E2.mod = E.mod ∧ E2.tmpFileExt = E.tmpFileExt :=
        ⟨s1, s2, s3, s4, s5, s6, s7⟩
      simp only [hs] at h
      have rec : ∀ b, commandPrompt pre post keys b E2 = some (line, keys1, E1) →
          E1.row = E.row ∧ E1.cx = E.cx ∧ E1.cy = E.cy ∧ E1.mode = E.mode ∧
          E1.filename = E.filename ∧ E1.mod = E.mod ∧ E1.tmpFileExt = E.tmpFileExt ∧
          E1.statusmsg = [] := by
        intro b hb
        obtain ⟨r1, r2, r3, r4, r5, r6, r7, r8⟩ := ih b E2 hb
        exact ⟨r1.trans s1, r2.trans s2, r3.trans s3, r4.trans s4, r5.trans s5, r6.trans s6,
          r7.trans s7, r8⟩
      have done : ∀ l k, some (l, k, setStatusMsg [] E2) = some (line, keys1, E1) →
          E1.row = E.row ∧ E1.cx = E.cx ∧ E1.cy = E.cy ∧ E1.mode = E.mode ∧
          E1.filename = E.filename ∧ E1.mod = E.mod ∧ E1.tmpFileExt = E.tmpFileExt ∧
          E1.statusmsg = [] := by
        intro l k hk
        simp only [Option.some.injEq, Prod.mk.injEq] at hk
        rw [← hk.2.2]
        exact ⟨s1, s2, s3, s4, s5, s6, s7, rfl⟩
      split_ifs at h <;> first | exact rec _ h | exact done _ _ h

/-- The command lines for which `editorCommand` reports `Invalid Command`: after the trailing
blanks are removed, more than two bytes not starting with `o`, or a first byte other than
`w`, `q` and `o`, or `o` not followed by a blank and a path. Nothing is done outside the
state, and the buffer, the cursor, the mode, the file name and the modified flag are those
of the state before the command. -/
theorem editorCommand_invalid (w : World) (keys : List Int) (E : Config)
    (line : List Nat) (keys1 : List Int) (E1 : Config) (rcmd : List Nat)
    (hp : commandPrompt [58] [] keys [] E = some (some line, keys1, E1))
    (ht : trimBlanks line.reverse = some rcmd)
    (hbad : ((rcmd.reverse.length : Int) > 2 ∧ rcmd.reverse.getD 0 0 ≠ 111) ∨
      (rcmd.reverse.getD 0 0 ≠ 119 ∧ rcmd.reverse.getD 0 0 ≠ 113 ∧
        rcmd.reverse.getD 0 0 ≠ 111) ∨
      (rcmd.reverse.getD 0 0 = 111 ∧
        ¬ ((rcmd.reverse.length : Int) ≥ 3 ∧ rcmd.reverse.getD 1 0 = 32))) :
    editorCommand w keys E = some ⟨setStatusMsg MSG_INVALID E1, keys1, []⟩ ∧
    E1.row = E.row ∧ E1.cx = E.cx ∧ E1.cy = E.cy ∧ E1.mode = E.mode ∧
    E1.filename = E.filename ∧ E1.mod = E.mod := by
  obtain ⟨f1, f2, f3, f4, f5, f6, _, _⟩ := commandPrompt_fields _ _ _ _ _ _ _ _ hp
  refine ⟨?_, f1, f2, f3, f4, f5, f6⟩
  simp only [editorCommand, hp, ht]
  rcases hbad with ⟨h1, h2⟩ | ⟨h1, h2, h3⟩ | ⟨h1, h2⟩
  · rw [if_pos ⟨h1, h2⟩]
  · by_cases hl : (rcmd.reverse.length : Int) > 2 ∧ rcmd.reverse.getD 0 0 ≠ 111
    · rw [if_pos hl]
    · rw [if_neg hl, if_neg h1, if_neg h2, if_neg h3]
  · have hl : ¬ ((rcmd.reverse.length : Int) > 2 ∧ rcmd.reverse.getD 0 0 ≠ 111) :=
      fun e => e.2 h1
    have e1 : ¬ (rcmd.reverse.getD 0 0 = 119) := by omega
    have e2 : ¬ (rcmd.reverse.getD 0 0 = 113) := by omega
    rw [if_neg hl, if_neg e1, if_neg e2, if_pos h1, if_neg h2]

/-- C20, the code at other command lines. On the unmodified empty buffer the line `qx` ends
the process with status 0 and reports nothing; the line `wx` calls `fileSave`, which asks for
a file name and, when that prompt is left with ESC, reports `Save Aborted`; with a file name
set the line `wx` reaches the building of the temporary name in `fileSave`; on a modified
buffer the line `qx` reports the unsaved changes; the line of one blank is trimmed to nothing
and the loop reads `command[-1]`. None of these reports `Invalid Command`, which the line `zz`
does. -/
theorem editorCommand_two_byte_lines (w : World) :
    (editorCommand w [113, 120, 13] (init 24 80)).map (fun r => (r.effects, r.E.statusmsg))
      = some ([Effect.exited 0], []) ∧
    (editorCommand w [119, 120, 13, 27] (init 24 80)).map
        (fun r => (r.effects, r.E.statusmsg, r.E.filename))
      = some ([], MSG_SAVE_ABORTED, none) ∧
    editorCommand w [119, 120, 13] { init 24 80 with filename := some [102] } = none ∧
    (editorCommand w [113, 120, 13] (bufferOf [[97]])).map
        (fun r => (r.effects, r.E.statusmsg))
      = some ([], MSG_UNSAVED) ∧
    editorCommand w [32, 13] (init 24 80) = none ∧
    (editorCommand w [122, 122, 13] (init 24 80)).map (fun r => (r.effects, r.E.statusmsg))
      = some ([], MSG_INVALID) :=
  ⟨rfl, rfl, rfl, rfl, rfl, rfl⟩

/-! ### The cursor row past the last row -/

/-- C14, the code after `i`, Enter, ESC on the empty buffer. The keys `i` and Enter lead from
the initial state to INSERT mode with one empty row and the cursor at `cy = 1 = numrows`:
`insertNewline` inserts a row at `cy = 0` and increments `cy`. ESC then assigns
`E.mode = NORMAL` and, since `numrows > 0`, reads `E.row[E.cy].size` at `cy = 1`, which is
not a row: the handler has no state to return, and the state it has built is in NORMAL mode
with `cy = numrows = 1`. -/
theorem escape_with_cursor_past_last_row (cmd : Config → Option Config) :
    handleKeys cmd [105, 13] (init 24 80)
      = some { init 24 80 with mode := Mode.INSERT, row := [newRow []], cy := 1, cx := 0,
                               mod := true } ∧
    Config.numrows { init 24 80 with mode := Mode.INSERT, row := [newRow []], cy := 1,
                                     cx := 0, mod := true } = 1 ∧
    Config.rowAt { init 24 80 with mode := Mode.NORMAL, row := [newRow []], cy := 1,
                                   cx := 0, mod := true } 1 = none ∧
    handleKeypress cmd ESC_KEY
        { init 24 80 with mode := Mode.INSERT, row := [newRow []], cy := 1, cx := 0,
                          mod := true } = none ∧
    handleKeys cmd [105, 13, 27] (init 24 80) = none :=
  ⟨rfl, rfl, rfl, rfl, rfl⟩

/-! ### The key `x` and the NORMAL clamp; row accesses on the empty buffer -/

theorem size_after_erase (row : Row) (n : Nat) (h : n < row.chars.length) :
    (updateRow { row with chars := row.chars.take n ++ row.chars.drop (n + 1) }).size
      = row.size - 1 := by
  rw [updateRow_size]
  unfold Row.size
  simp only [List.length_append, List.length_take, List.length_drop]
  omega

/-- In NORMAL mode with the cursor on row `cy` and `0 ≤ cx < size`, the key `x` leaves a row
of size `size - 1` under the cursor and `cx` as it was: the cursor is on a byte of the new
row when `cx < size - 1`, and at `cx = size - 1` it is at `cx = newsize`, past the last
byte. -/
theorem x_cursor_after_delete (cmd : Config → Option Config) (E : Config) (row : Row)
    (hm : E.mode = Mode.NORMAL) (hrow : E.rowAt E.cy = some row)
    (h0 : 0 ≤ E.cx) (h1 : E.cx < row.size) :
    ∃ E1 r1, handleKeypress cmd 120 E = some E1 ∧ E1.mode = Mode.NORMAL ∧
      E1.rowAt E1.cy = some r1 ∧ r1.size = row.size - 1 ∧ E1.cx = E.cx ∧
      (E.cx < row.size - 1 → 0 ≤ E1.cx ∧ E1.cx ≤ r1.size - 1) ∧
      (E.cx = row.size - 1 → E1.cx = r1.size) := by
  obtain ⟨hc0, hlt, hget⟩ := rowAt_some hrow
  obtain ⟨k, hk⟩ := Int.eq_ofNat_of_zero_le hc0
  have hkk : E.cy.toNat = k := by omega
  rw [hkk] at hget
  have hlen : (E.row.take k).length = k := length_take_lt hget
  have hn : E.cx.toNat < row.chars.length := by
    unfold Row.size at h1
    omega
  have hsize := size_after_erase row E.cx.toNat hn
  refine ⟨_, _, handleKeypress_x_in_row cmd E k row hm hk hget h0 h1, hm, ?_, hsize, rfl, ?_,
    ?_⟩
  · show Config.rowAt _ E.cy = _
    rw [hk, rowAt_ofNat]
    show (E.row.take k ++ _ :: E.row.drop (k + 1))[k]? = _
    rw [List.getElem?_append_right (by omega)]
    simp [hlen]
  · intro h
    rw [hsize]
    exact ⟨h0, by show E.cx ≤ _; omega⟩
  · intro h
    rw [hsize]
    exact h

/-- C21, the code at the last byte of a row. In NORMAL mode on the buffer `ab` with the cursor
on `b`, `cx = 1 = size - 1`, which is inside the clamp range, the key `x` leaves the row `a`
of size 1 and `cx = 1`: the cursor is past the last byte, above `max(0, newsize - 1) = 0`.
`delChar` restores `cx` after the deletion and nothing clamps it to the shorter row. With
the cursor on `a` the same key leaves the row `b` and `cx = 0`, inside the range. -/
theorem x_on_last_byte_leaves_cx_at_size (cmd : Config → Option Config) :
    Config.mode { bufferOf [[97, 98]] with cx := 1 } = Mode.NORMAL ∧
    (Config.rowAt { bufferOf [[97, 98]] with cx := 1 } 0).map Row.size = some 2 ∧
    (handleKeypress cmd 120 { bufferOf [[97, 98]] with cx := 1 }).map
        (fun E => (E.mode, E.cx, E.cy, E.row.map (fun r => (r.chars, r.size))))
      = some (Mode.NORMAL, 1, 0, [([97], 1)]) ∧
    (handleKeypress cmd 120 (bufferOf [[97, 98]])).map
        (fun E => (E.mode, E.cx, E.cy, E.row.map (fun r => (r.chars, r.size))))
      = some (Mode.NORMAL, 0, 0, [([98], 1)]) :=
  ⟨rfl, rfl, rfl, rfl⟩

/-- On a buffer without rows, in NORMAL mode, the keys `x` and `o` read `E.row[E.cy]`, and
the Delete key, in either mode, reads `E.row[E.cx]`: there is no such row. -/
theorem keys_on_no_rows (cmd : Config → Option Config) (E : Config) (hrows : E.row = []) :
    (E.mode = Mode.NORMAL → handleKeypress cmd 120 E = none) ∧
    (E.mode = Mode.NORMAL → handleKeypress cmd 111 E = none) ∧
    handleKeypress cmd DEL_KEY E = none := by
  have hnone : ∀ i, E.rowAt i = none := by
    intro i
    unfold Config.rowAt
    rw [hrows]
    split_ifs <;> rfl
  refine ⟨?_, ?_, ?_⟩
  · intro hm
    simp [handleKeypress, hm, hnone, CtrlKey, ARROW_UP, ARROW_DOWN, ARROW_LEFT, ARROW_RIGHT,
      PAGE_UP, PAGE_DOWN, HOME_KEY, END_KEY, DEL_KEY, BACKSPACE]
  · intro hm
    simp [handleKeypress, hm, hnone, CtrlKey, ARROW_UP, ARROW_DOWN, ARROW_LEFT, ARROW_RIGHT,
      PAGE_UP, PAGE_DOWN, HOME_KEY, END_KEY, DEL_KEY, BACKSPACE, ESC_KEY, ENTER_KEY]
  · simp [handleKeypress, hnone, CtrlKey, ARROW_UP, ARROW_DOWN, ARROW_LEFT, ARROW_RIGHT,
      PAGE_UP, PAGE_DOWN, HOME_KEY, END_KEY, DEL_KEY]

/-- C22, the code on the empty buffer. In the initial state, which has no row and the cursor
at `(0, 0)` in NORMAL mode, the key `x` reads `E.row[E.cy].size`, the key `o` reads
`E.row[E.cy].size` and the Delete key reads `E.row[E.cx].size`, all at index 0 of a row array
that is `NULL` with `numrows = 0`: an access outside `[0, numrows)`. The bytes `x` and `o`
reach the handler as the keys 120 and 111 and the sequence ESC [ 3 ~ as `DEL_KEY`, whether
plain `char` is signed or not. After the keys `i` and Enter, ESC reads `E.row[1]` with
`numrows = 1`. The keys `a`, `$` and End, which test `numrows` or `cy < numrows` first, return
a state on the same buffer. -/
theorem dispatch_reads_row_on_empty_buffer (cmd : Config → Option Config)
    (signedChar : Bool) :
    (init 24 80).numrows = 0 ∧ (init 24 80).rowAt 0 = none ∧
    readKeypress signedChar [some 120] = some (120, []) ∧
    handleKeypress cmd 120 (init 24 80) = none ∧
    readKeypress signedChar [some 111] = some (111, []) ∧
    handleKeypress cmd 111 (init 24 80) = none ∧
    readKeypress signedChar [some 27, some 91, some 51, some 126] = some (DEL_KEY, []) ∧
    handleKeypress cmd DEL_KEY (init 24 80) = none ∧
    handleKeys cmd [105, 13, 27] (init 24 80) = none ∧
    (handleKeypress cmd 97 (init 24 80)).isSome = true ∧
    (handleKeypress cmd 36 (init 24 80)).isSome = true ∧
    (handleKeypress cmd END_KEY (init 24 80)).isSome = true := by
  cases signedChar <;> exact ⟨rfl, rfl, rfl, rfl, rfl, rfl, rfl, rfl, rfl, rfl, rfl, rfl⟩

end Editor
